import Mathlib

/-
  Verification development for the RTI schedule monitor (monitor_stdlib.py).

  The source program is embedded shallowly: Python strings are modelled as
  lists of characters (Python indexes and slices strings by code point), the
  concrete regular expressions of the source are implemented directly as
  executable scanners with Python's leftmost, non-overlapping backtracking
  semantics for those exact patterns, and the network collaborators
  (fetch_text / fetch_size_bytes) are modelled as pure oracle functions:
  fetch_text returns none where the Python function raises, and
  fetch_size_bytes is total (the source swallows every exception and
  returns 0).  Character-level case mapping models Python str.lower/upper
  on the ASCII range, which covers every literal the source compares.
-/

set_option maxRecDepth 10000

namespace RtiMonitor

/-- A Python string, viewed as its list of code points. -/
abbrev Chars := List Char

/-- ASCII lowercasing (model of Python str.lower on the relevant range). -/
def lowC (c : Char) : Char := c.toLower

/-- Python regex \s and str.strip default whitespace, ASCII part. -/
def isPyWs (c : Char) : Bool :=
  c == ' ' || c == '\t' || c == '\n' || c == '\r' || c == '\x0b' || c == '\x0c'

/-- pat is a prefix of s, comparing case-insensitively. -/
def pfxCI : Chars → Chars → Bool
  | [], _ => true
  | _ :: _, [] => false
  | p :: ps, c :: cs => (lowC p == lowC c) && pfxCI ps cs

/-- pat is a prefix of s, comparing exactly. -/
def pfxCS : Chars → Chars → Bool
  | [], _ => true
  | _ :: _, [] => false
  | p :: ps, c :: cs => (p == c) && pfxCS ps cs

/-- pat occurs somewhere in s, case-insensitively (Python `a.lower() in b.lower()`). -/
def hasCI (pat : Chars) : Chars → Bool
  | [] => pfxCI pat []
  | c :: cs => pfxCI pat (c :: cs) || hasCI pat cs

/-- pat occurs somewhere in s (Python `a in b`). -/
def hasCS (pat : Chars) : Chars → Bool
  | [] => pfxCS pat []
  | c :: cs => pfxCS pat (c :: cs) || hasCS pat cs

/-- Python slice s[a:b] with the usual clamping. -/
def slice (s : Chars) (a b : Nat) : Chars := (s.take b).drop a

/-- Least index j with i ≤ j < s.length such that p holds of the suffix at j. -/
def findIdxFromAux (s : Chars) (p : Chars → Bool) : Nat → Nat → Option Nat
  | _, 0 => none
  | i, fuel+1 =>
    if i < s.length then
      if p (s.drop i) then some i else findIdxFromAux s p (i+1) fuel
    else none

def findIdxFrom (s : Chars) (i : Nat) (p : Chars → Bool) : Option Nat :=
  findIdxFromAux s p i (s.length + 1)

/-- One pass of Python re.sub(r"(?is)<OPEN[^>]*>.*?</CLOSE>", " ", s): each
    non-overlapping leftmost match is replaced by one space.  A match at i
    needs the literal OPEN (case-insensitive), then the first following '>',
    then the first following CLOSE (lazy .*? with DOTALL). -/
def scrubBlockAux (openLit closeLit : Chars) (s : Chars) : Nat → Nat → Chars
  | _, 0 => []
  | i, fuel+1 =>
    match s.get? i with
    | none => []
    | some c =>
      if pfxCI openLit (s.drop i) then
        match findIdxFrom s (i + openLit.length) (fun suf => suf.head? == some '>') with
        | some j =>
          match findIdxFrom s (j+1) (fun suf => pfxCI closeLit suf) with
          | some e => ' ' :: scrubBlockAux openLit closeLit s (e + closeLit.length) fuel
          | none => c :: scrubBlockAux openLit closeLit s (i+1) fuel
        | none => c :: scrubBlockAux openLit closeLit s (i+1) fuel
      else c :: scrubBlockAux openLit closeLit s (i+1) fuel

/-- Python re.sub(r"(?s)<[^>]+>", " ", s): a '<', at least one non-'>', then '>'. -/
def stripAngleAux (s : Chars) : Nat → Nat → Chars
  | _, 0 => []
  | i, fuel+1 =>
    match s.get? i with
    | none => []
    | some c =>
      if c == '<' then
        match findIdxFrom s (i+1) (fun suf => suf.head? == some '>') with
        | some j =>
          if i + 2 ≤ j then ' ' :: stripAngleAux s (j+1) fuel
          else c :: stripAngleAux s (i+1) fuel
        | none => c :: stripAngleAux s (i+1) fuel
      else c :: stripAngleAux s (i+1) fuel

/-- Python re.sub(r"\s+", " ", s): every maximal whitespace run becomes one space. -/
def collapseAllWsAux : Chars → Bool → Chars
  | [], _ => []
  | c :: cs, inWs =>
    if isPyWs c then
      if inWs then collapseAllWsAux cs true else ' ' :: collapseAllWsAux cs true
    else c :: collapseAllWsAux cs false

def collapseAllWs (s : Chars) : Chars := collapseAllWsAux s false

/-- Python re.sub(r"\s{2,}", " ", s): only runs of two or more are replaced. -/
def cw2Aux : Nat → Chars → Chars
  | 0, s => s
  | fuel+1, [] => (fun _ => []) fuel
  | fuel+1, c :: cs =>
    if isPyWs c then
      if (cs.takeWhile isPyWs).isEmpty then c :: cw2Aux fuel cs
      else ' ' :: cw2Aux fuel (cs.dropWhile isPyWs)
    else c :: cw2Aux fuel cs

def cw2 (s : Chars) : Chars := cw2Aux s.length s

/-- Python str.strip() on the ASCII whitespace range. -/
def pyStrip (s : Chars) : Chars :=
  ((s.dropWhile isPyWs).reverse.dropWhile isPyWs).reverse

/-- Lean model of strip_tags (monitor_stdlib.py lines 65-69). -/
def strip_tags (s : Chars) : Chars :=
  let h1 := scrubBlockAux ("<script".data) ("</script>".data) s 0 (s.length + 1)
  let h2 := scrubBlockAux ("<style".data) ("</style>".data) h1 0 (h1.length + 1)
  let h3 := stripAngleAux h2 0 (h2.length + 1)
  pyStrip (collapseAllWs h3)

/-- Lean model of base_of (lines 78-80): re.match(r"^https?://[^/]+", url),
    returning the matched scheme-and-host prefix or the empty string. -/
def base_of (u : Chars) : Chars :=
  let k : Option Nat :=
    if pfxCS ("https://".data) u then some 8
    else if pfxCS ("http://".data) u then some 7
    else none
  match k with
  | none => []
  | some k =>
    let host := (u.drop k).takeWhile (fun c => c != '/')
    if host.isEmpty then [] else u.take k ++ host

/-- Lean model of absolutize (lines 82-86). -/
def absolutizeC (base href : Chars) : Chars :=
  if pfxCS ("//".data) href then ("https:".data) ++ href
  else if pfxCS ("http://".data) href || pfxCS ("https://".data) href then href
  else if pfxCS ("/".data) href then base ++ href
  else (base.reverse.dropWhile (fun c => c == '/')).reverse
       ++ ("/".data) ++ href.dropWhile (fun c => c == '.' || c == '/')

/-- The decimal digit character for n % 10. -/
def decDigit (n : Nat) : Char :=
  match n % 10 with
  | 0 => '0' | 1 => '1' | 2 => '2' | 3 => '3' | 4 => '4'
  | 5 => '5' | 6 => '6' | 7 => '7' | 8 => '8' | _ => '9'

def decCharsAux : Nat → Nat → Chars
  | 0, n => [decDigit n]
  | fuel+1, n => if n < 10 then [decDigit n] else decCharsAux fuel (n / 10) ++ [decDigit (n % 10)]

/-- Decimal rendering of a natural number (Python str/format of a nonnegative int). -/
def decChars (n : Nat) : Chars := decCharsAux n n

/-- Python format {:0Wd}: left-pad the decimal rendering with zeros to width w. -/
def padZ (w n : Nat) : Chars := List.replicate (w - (decChars n).length) '0' ++ decChars n

/-- A Python datetime.date: the source guarantees 1 ≤ month ≤ 12, 1 ≤ day ≤ 31,
    1 ≤ year ≤ 9999; theorems state those bounds explicitly where needed. -/
structure PyDate where
  year : Nat
  month : Nat
  day : Nat
deriving DecidableEq

def monthsShort : List Chars :=
  ["Jan".data, "Feb".data, "Mar".data, "Apr".data, "May".data, "Jun".data,
   "Jul".data, "Aug".data, "Sep".data, "Oct".data, "Nov".data, "Dec".data]

def monthsLong : List Chars :=
  ["January".data, "February".data, "March".data, "April".data, "May".data, "June".data,
   "July".data, "August".data, "September".data, "October".data, "November".data, "December".data]

/-- Lean model of date_variants (lines 88-99). -/
def date_variants (d : PyDate) : List String :=
  [ String.mk (padZ 4 d.year ++ "-".data ++ padZ 2 d.month ++ "-".data ++ padZ 2 d.day),
    String.mk (padZ 4 d.year ++ "/".data ++ padZ 2 d.month ++ "/".data ++ padZ 2 d.day),
    String.mk (padZ 2 d.day ++ "/".data ++ padZ 2 d.month ++ "/".data ++ padZ 4 d.year),
    String.mk (padZ 2 d.month ++ "/".data ++ padZ 2 d.day ++ "/".data ++ padZ 4 d.year),
    String.mk ((monthsShort.getD (d.month - 1) []) ++ " ".data ++ decChars d.day
               ++ ", ".data ++ decChars d.year),
    String.mk ((monthsLong.getD (d.month - 1) []) ++ " ".data ++ decChars d.day
               ++ ", ".data ++ decChars d.year) ]

/-- Lean model of norm_title (lines 101-103). -/
def norm_title (s : Chars) : Chars := (pyStrip (collapseAllWs s)).map lowC

/-- Decimal digit test ('0'..'9'). -/
def isDigitC (c : Char) : Bool := 48 ≤ c.toNat && c.toNat ≤ 57

/-- ASCII letter test: what [a-z] matches under re.IGNORECASE. -/
def isAsciiLetter (c : Char) : Bool :=
  (65 ≤ c.toNat && c.toNat ≤ 90) || (97 ≤ c.toNat && c.toNat ≤ 122)

def allDigits (s : Chars) : Bool := s.all isDigitC

/-- One (slot-length, id-length) alternative of the pid regexes, checked on
    t = the characters after a '/' that must run exactly to the end of the
    subject: \d{8}_\d{slotLen}_\d{idLen} then (for the first pattern) _[a-z]{2},
    then .mp3 (case-insensitive, from re.IGNORECASE). -/
def pidComboCheck (t : Chars) (withLoc : Bool) (slotLen idLen : Nat) : Option Chars :=
  if t.length == 8 + 1 + slotLen + 1 + idLen + (cond withLoc 3 0) + 4 then
    if allDigits (t.take 8) && t.get? 8 == some '_' && allDigits (slice t 9 (9 + slotLen))
        && t.get? (9 + slotLen) == some '_'
        && allDigits (slice t (10 + slotLen) (10 + slotLen + idLen))
        && (cond withLoc
             ((t.drop (10 + slotLen + idLen)).get? 0 == some '_'
               && ((t.drop (10 + slotLen + idLen)).get? 1).any isAsciiLetter
               && ((t.drop (10 + slotLen + idLen)).get? 2).any isAsciiLetter)
             true)
        && pfxCI (".mp3".data) ((t.drop (10 + slotLen + idLen)).drop (cond withLoc 3 0)) then
      some (slice t (10 + slotLen) (10 + slotLen + idLen))
    else none
  else none

/-- The backtracking order of (\d{3,4})_(\d{3,6}): greedy slot first, then greedy id. -/
def pidCombos : List (Nat × Nat) :=
  [(4,6), (4,5), (4,4), (4,3), (3,6), (3,5), (3,4), (3,3)]

/-- Attempt of the end-anchored pid pattern at the slash at index i of core. -/
def pidTryAt (core : Chars) (withLoc : Bool) (i : Nat) : Option Chars :=
  if core.get? i == some '/' then
    pidCombos.findSome? (fun sl => pidComboCheck (core.drop (i+1)) withLoc sl.1 sl.2)
  else none

/-- re.search: scan start positions left to right. -/
def pidScanAux (core : Chars) (withLoc : Bool) : Nat → Nat → Option Chars
  | _, 0 => none
  | i, fuel+1 =>
    if i < core.length then
      match pidTryAt core withLoc i with
      | some g => some g
      | none => pidScanAux core withLoc (i+1) fuel
    else none

def pidSearch (core : Chars) (withLoc : Bool) : Option Chars :=
  pidScanAux core withLoc 0 (core.length + 1)

/-- Python "0123".lstrip("0") or "0". -/
def lstripZeros (s : Chars) : Chars :=
  let r := s.dropWhile (fun c => c == '0')
  if r.isEmpty then ['0'] else r

/-- The subject the $-anchored patterns effectively run on: $ matches at the
    end of the string or just before one final newline. -/
def pidCore (u : String) : Chars :=
  if u.data.getLast? == some '\n' then u.data.dropLast else u.data

/-- Lean model of pid_from_audio_url (lines 105-120): the locale-suffixed
    pattern is tried first, then the pattern without the locale. -/
def pid_from_audio_url (u : String) : Option String :=
  match pidSearch (pidCore u) true with
  | some g => some (String.mk (lstripZeros g))
  | none =>
    match pidSearch (pidCore u) false with
    | some g => some (String.mk (lstripZeros g))
    | none => none

/-! ## Anchor scanning

The two schedule-link regexes and the program-page episode regex all share the
shape <a[^>]+href=(['"])([^'"]*?LIT[^'"]+)\1[^>]*>(.*?)</a> with re.I|re.S,
differing only in the literal LIT.  The implementation below follows the
backtracking semantics of that exact pattern: at a match start, [^>]+ is
greedy (the rightmost href= inside the run of non-'>' characters is tried
first), group 2 runs over non-quote characters up to the first quote, which
must equal the opening quote, and must contain LIT (case-insensitively) with
at least one character after it, then the first following '>' closes the tag
and the lazy group 3 stops at the first following </a>. -/

/-- One regex match of the anchor pattern: match start, match end, group 2
    (the raw href) and group 3 (the label markup). -/
structure Anchor where
  astart : Nat
  aend : Nat
  aurl : Chars
  ainner : Chars
deriving DecidableEq

def isQuoteC (c : Char) : Bool := c == '"' || c.toNat == 39

/-- t contains lit (case-insensitively) with at least one character after it:
    the [^'"]*?LIT[^'"]+ body of group 2. -/
def litPlus (lit : Chars) : Chars → Bool
  | [] => false
  | c :: cs => (pfxCI lit (c :: cs) && lit.length < (c :: cs).length) || litPlus lit cs

/-- The part of an anchor match after a fixed href= position h:
    (['"]) at h+5, group 2 up to the first quote (which must equal the opening
    one and whose body must satisfy litPlus), [^>]*> up to the first '>',
    (.*?)</a> up to the first </a>.  Returns (match end, group 2, group 3). -/
def anchorRest (html lit : Chars) (h : Nat) : Option (Nat × Chars × Chars) :=
  match html.get? (h+5) with
  | none => none
  | some q =>
    if isQuoteC q then
      match findIdxFrom html (h+6) (fun suf => (suf.head?.elim false isQuoteC)) with
      | none => none
      | some c =>
        if html.get? c == some q then
          if litPlus lit (slice html (h+6) c) then
            match findIdxFrom html (c+1) (fun suf => suf.head? == some '>') with
            | none => none
            | some g =>
              match findIdxFrom html (g+1) (fun suf => pfxCI ("</a>".data) suf) with
              | none => none
              | some e => some (e + 4, slice html (h+6) c, slice html (g+1) e)
          else none
        else none
    else none

def hrefAt (html : Chars) (h : Nat) : Bool := pfxCI ("href=".data) (html.drop h)

/-- Try the candidate href= positions in backtracking (rightmost-first) order. -/
def anchorTryHs (html lit : Chars) : List Nat → Option (Nat × Chars × Chars)
  | [] => none
  | h :: hs =>
    if hrefAt html h then
      match anchorRest html lit h with
      | some r => some r
      | none => anchorTryHs html lit hs
    else anchorTryHs html lit hs

/-- Try an anchor match starting at index i. -/
def anchorTryAt (html lit : Chars) (i : Nat) : Option (Nat × Chars × Chars) :=
  if html.get? i == some '<' && (html.get? (i+1)).elim false (fun c => lowC c == 'a') then
    let r := ((html.drop (i+2)).takeWhile (fun c => c != '>')).length
    anchorTryHs html lit ((List.range r).map (fun k => i + 2 + r - k))
  else none

/-- re.finditer: leftmost matches, non-overlapping (resume at each match end). -/
def findAnchorsAux (html lit : Chars) : Nat → Nat → List Anchor
  | _, 0 => []
  | i, fuel+1 =>
    if i < html.length then
      match anchorTryAt html lit i with
      | some (e, t, inn) => ⟨i, e, t, inn⟩ :: findAnchorsAux html lit e fuel
      | none => findAnchorsAux html lit (i+1) fuel
    else []

def findAnchors (html lit : Chars) : List Anchor :=
  findAnchorsAux html lit 0 (html.length + 1)

def litProgram : Chars := "/program?pid=".data
def litEpisode : Chars := "/programnews?pid=".data

/-- One candidate link of the schedule page. -/
structure LinkItem where
  title : String
  url : String
  kind : String
deriving DecidableEq

/-- The candidate built by the push closure for one anchor match. -/
def mkLinkItem (base : Chars) (kind : String) (a : Anchor) : LinkItem :=
  { title := String.mk (strip_tags a.ainner), url := String.mk (absolutizeC base a.aurl),
    kind := kind }

/-- The push closure of find_links_from_schedule: absolute url, dedup by url
    across both passes, first occurrence wins. -/
def pushLinks (base : Chars) (kind : String) :
    List Anchor → List LinkItem × List String → List LinkItem × List String
  | [], acc => acc
  | a :: rest, (out, seen) =>
    if seen.contains (String.mk (absolutizeC base a.aurl)) then
      pushLinks base kind rest (out, seen)
    else pushLinks base kind rest
      (out ++ [mkLinkItem base kind a], seen ++ [String.mk (absolutizeC base a.aurl)])

/-- Lean model of find_links_from_schedule (lines 124-147): the program pass
    runs first, then the episode pass, sharing the dedup set. -/
def find_links_from_schedule (html base : String) : List LinkItem :=
  let p1 := pushLinks base.data "program" (findAnchors html.data litProgram) ([], [])
  (pushLinks base.data "episode" (findAnchors html.data litEpisode) p1).1

/-! ## Audio item scanning (strategy C and the episode validator) -/

/-- One match of the attribute audio regex
    (?:src|href)\s*=\s*(["'])([^"']+\.EXT(?:\?[^"']*)?)\1 (re.I):
    match start, match end, and group 2. -/
structure AttrHit where
  hstart : Nat
  hend : Nat
  raw : Chars
deriving DecidableEq

/-- Greedy search for the last extension occurrence inside the quote-free run t
    at an offset k from the given descending candidate list: .EXT at k, and
    either the run ends right after it or a query string follows. -/
def lastGoodExt (t : Chars) (exts : List Chars) : List Nat → Option Nat
  | [] => none
  | k :: ks =>
    if (exts.any (fun e => pfxCI ('.' :: e) (t.drop k)))
        && (k + 4 == t.length || t.get? (k+4) == some '?') then some k
    else lastGoodExt t exts ks

/-- Candidate offsets t.length-4, ..., 1 (at least one character must precede
    the extension, from the + in [^"']+). -/
def descKs (t : Chars) : List Nat := (List.range (t.length - 4)).map (fun j => t.length - 4 - j)

def attrKeyLen (html : Chars) (i : Nat) : Option Nat :=
  if pfxCI ("src".data) (html.drop i) then some 3
  else if pfxCI ("href".data) (html.drop i) then some 4
  else none

/-- Try the attribute audio regex at index i. -/
def attrTryAt (html : Chars) (exts : List Chars) (i : Nat) : Option AttrHit :=
  match attrKeyLen html i with
  | none => none
  | some kl =>
    let j1 := i + kl + ((html.drop (i + kl)).takeWhile isPyWs).length
    if html.get? j1 == some '=' then
      let j2 := j1 + 1 + ((html.drop (j1 + 1)).takeWhile isPyWs).length
      match html.get? j2 with
      | none => none
      | some q =>
        if isQuoteC q then
          match findIdxFrom html (j2+1) (fun suf => suf.head?.elim false isQuoteC) with
          | none => none
          | some c =>
            if html.get? c == some q then
              let t := slice html (j2+1) c
              match lastGoodExt t exts (descKs t) with
              | some _ => some ⟨i, c + 1, t⟩
              | none => none
            else none
        else none
    else none

def attrHitsAux (html : Chars) (exts : List Chars) : Nat → Nat → List AttrHit
  | _, 0 => []
  | i, fuel+1 =>
    if i < html.length then
      match attrTryAt html exts i with
      | some h => h :: attrHitsAux html exts h.hend fuel
      | none => attrHitsAux html exts (i+1) fuel
    else []

def attrHits (html : Chars) (exts : List Chars) : List AttrHit :=
  attrHitsAux html exts 0 (html.length + 1)

/-- Characters admitted by [^\s"'<>()] in the plain-text audio regex. -/
def plainUrlC (c : Char) : Bool :=
  !(isPyWs c) && c != '"' && c.toNat != 39 && c != '<' && c != '>' && c != '(' && c != ')'

/-- Last ".mp3" occurrence at offset ≥ 1 in t (no boundary needed: the query
    group is optional). -/
def lastMp3K (t : Chars) : List Nat → Option Nat
  | [] => none
  | k :: ks => if pfxCI (".mp3".data) (t.drop k) then some k else lastMp3K t ks

/-- Try the plain-text regex https?://[^\s"'<>()]+\.mp3(?:\?[^\s"'<>()]+)?
    (re.I) at index i; returns (match end, matched text). -/
def plainTryAt (html : Chars) (i : Nat) : Option (Nat × Chars) :=
  let sl : Option Nat :=
    if pfxCI ("https://".data) (html.drop i) then some 8
    else if pfxCI ("http://".data) (html.drop i) then some 7
    else none
  match sl with
  | none => none
  | some sl =>
    let t := (html.drop (i + sl)).takeWhile plainUrlC
    match lastMp3K t (descKs t) with
    | none => none
    | some k =>
      let n := if t.get? (k+4) == some '?' && k + 6 ≤ t.length then t.length else k + 4
      some (i + sl + n, slice html i (i + sl + n))

def plainHitsAux (html : Chars) : Nat → Nat → List Chars
  | _, 0 => []
  | i, fuel+1 =>
    if i < html.length then
      match plainTryAt html i with
      | some (e, m) => m :: plainHitsAux html e fuel
      | none => plainHitsAux html (i+1) fuel
    else []

/-- re.findall of the plain-text audio regex. -/
def plainHits (html : Chars) : List Chars := plainHitsAux html 0 (html.length + 1)

/-- The fixed program-name fragments of find_audio_items_from_schedule. -/
def audioKeys : List String :=
  ["English Program", "Beyond the Reefs", "The Doomscroll News Report", "News", "ON AIR"]

/-- Word characters for the \b boundaries of \bimg\b (ASCII word characters,
    extended with the Latin ranges the title cleaner keeps). -/
def isWordC (c : Char) : Bool :=
  isDigitC c || isAsciiLetter c || c == '_' || (0xC0 ≤ c.toNat && c.toNat ≤ 0x24F)

def imgBoundaryAt (s : Chars) (i : Nat) : Bool :=
  pfxCI ("img".data) (s.drop i)
  && (i == 0 || !((s.get? (i-1)).elim false isWordC))
  && !((s.get? (i+3)).elim false isWordC)

/-- re.sub(r"\bimg\b.*", "", s, flags=re.I): from a word-bounded img, delete up
    to (excluding) the next newline or the end. -/
def imgScrubAux (s : Chars) : Nat → Nat → Chars
  | _, 0 => []
  | i, fuel+1 =>
    match s.get? i with
    | none => []
    | some ch =>
      if imgBoundaryAt s i then
        match findIdxFrom s i (fun suf => suf.head? == some '\n') with
        | some nl => imgScrubAux s nl fuel
        | none => []
      else ch :: imgScrubAux s (i+1) fuel

/-- Characters kept by the title cleaner class [^A-Za-z0-9’'\-\.,:()!?À-ɏ\s]. -/
def keepC (c : Char) : Bool :=
  isAsciiLetter c || isDigitC c || c.toNat == 0x2019 || c.toNat == 39
  || c == '-' || c == '.' || c == ',' || c == ':' || c == '(' || c == ')'
  || c == '!' || c == '?' || (0xC0 ≤ c.toNat && c.toNat ≤ 0x24F) || isPyWs c

/-- Lean model of the clean_title closure (lines 156-161). -/
def clean_title (s : Chars) : Chars :=
  let s1 := imgScrubAux s 0 (s.length + 1)
  let s2 := pyStrip (cw2 s1)
  let s3 := s2.map (fun c => if keepC c then c else ' ')
  (pyStrip (cw2 s3)).take 80

/-- The title guess for a context window (lines 173-177 and 188-192). -/
def guessTitle (ctxText : Chars) : Chars :=
  match audioKeys.find? (fun k => hasCI k.data ctxText) with
  | some k => k.data
  | none => clean_title ctxText

/-- One discovered audio asset. -/
structure AudioItem where
  title : String
  audio_url : String
deriving DecidableEq

/-- Pass 1 of find_audio_items_from_schedule (lines 166-178): attribute hits,
    absolutized, deduplicated; the title from ±2000 characters of context. -/
def audioPass1 (html base : Chars) :
    List AttrHit → List AudioItem × List String → List AudioItem × List String
  | [], acc => acc
  | h :: rest, (out, seen) =>
    let url := String.mk (absolutizeC base h.raw)
    if seen.contains url then audioPass1 html base rest (out, seen)
    else
      let ctx := strip_tags (slice html (h.hstart - 2000) (h.hend + 2000))
      audioPass1 html base rest
        (out ++ [{ title := String.mk (guessTitle ctx), audio_url := url }], seen ++ [url])

/-- Pass 2 (lines 180-193): plain-text hits; the context window is centered on
    html.find(u), the first occurrence of the matched text (-1 when absent,
    which cannot happen for a matched text but is modelled faithfully). -/
def audioPass2 (html : Chars) :
    List Chars → List AudioItem × List String → List AudioItem × List String
  | [], acc => acc
  | u :: rest, (out, seen) =>
    let us := String.mk u
    if seen.contains us then audioPass2 html rest (out, seen)
    else
      let pos : Int := (findIdxFrom html 0 (fun suf => pfxCS u suf)).elim (-1) (fun p => (p : Int))
      let a : Nat := (max 0 (pos - 2000)).toNat
      let b : Nat := (min (html.length : Int) (pos + u.length + 2000)).toNat
      let ctx := strip_tags (slice html a b)
      audioPass2 html rest
        (out ++ [{ title := String.mk (guessTitle ctx), audio_url := us }], seen ++ [us])

/-- Lean model of find_audio_items_from_schedule (lines 149-196). -/
def find_audio_items_from_schedule (html base : String) : List AudioItem :=
  let p1 := audioPass1 html.data base.data (attrHits html.data ["mp3".data]) ([], [])
  (audioPass2 html.data (plainHits html.data) p1).1

/-! ## Episode validation and episode lookup -/

/-- The network collaborators (spec section 6), as pure oracles: fetchText
    returns none where fetch_text raises, fetchSize models fetch_size_bytes,
    which never raises and falls back to 0. -/
structure Net where
  fetchText : String → Option String
  fetchSize : String → Nat

/-- Lean model of extract_audio_links (lines 232-237).  The source collects
    into a Python set (iteration order unspecified); first-seen order is used
    here, and nothing downstream depends on the order. -/
def extract_audio_links (html base : String) : List String :=
  (attrHits html.data ["mp3".data, "m4a".data, "aac".data, "wav".data, "ogg".data]).foldl
    (fun (acc : List String) h =>
      let u := String.mk (absolutizeC base.data h.raw)
      if acc.contains u then acc else acc ++ [u]) []

/-- The dict returned by check_episode. -/
structure CheckResult where
  audio_ok : Bool
  bulletin_ok : Bool
  audio_urls : List String
  audio_sizes_kb : List Nat
  bulletin_len : Nat
  issues : List String
deriving DecidableEq

/-- Lean model of check_episode (lines 239-269).  The text of the caught
    exception is abstracted to the literal "error". -/
def check_episode (net : Net) (episode_url : String)
    (audio_min_kb bulletin_min_chars : Nat) : CheckResult :=
  match net.fetchText episode_url with
  | none =>
    { audio_ok := false, bulletin_ok := false, audio_urls := [], audio_sizes_kb := [],
      bulletin_len := 0, issues := ["episode fetch failed: error"] }
  | some html =>
    let urls := extract_audio_links html (String.mk (base_of episode_url.data))
    let sizes := urls.map (fun u => net.fetchSize u / 1024)
    let aok := sizes.any (fun s => audio_min_kb ≤ s)
    let blen := (strip_tags html.data).length
    let bok := bulletin_min_chars ≤ blen
    { audio_ok := aok, bulletin_ok := bok, audio_urls := urls, audio_sizes_kb := sizes,
      bulletin_len := blen,
      issues :=
        (if aok then [] else ["No audio >= " ++ String.mk (decChars audio_min_kb) ++ "KB"])
        ++ (if bok then [] else
            ["Bulletin too short (" ++ String.mk (decChars blen) ++ " chars)"]) }

/-- The ±200-character window around an anchor match (lines 223-224). -/
def ctxSlice (html : Chars) (a : Anchor) : Chars := slice html (a.astart - 200) (a.aend + 200)

/-- A date variant occurs in the anchor label, or in the context window. -/
def dayMatch (html : Chars) (vs : List String) (a : Anchor) : Bool :=
  vs.any (fun v => hasCS v.data (strip_tags a.ainner))
  || vs.any (fun v => hasCS v.data (strip_tags (ctxSlice html a)))

/-- The loop of find_episode_for_date (lines 215-227), with the running
    `first` fallback. -/
def epLoop (html : Chars) (vs : List String) (base : Chars) :
    List Anchor → Option (String × String) → Option (String × String)
  | [], first => first
  | a :: rest, first =>
    let href := String.mk (absolutizeC base a.aurl)
    let text := String.mk (strip_tags a.ainner)
    let first1 := match first with | none => some (text, href) | some f => some f
    if vs.any (fun v => hasCS v.data (strip_tags a.ainner)) then some (text, href)
    else if vs.any (fun v => hasCS v.data (strip_tags (ctxSlice html a))) then some (text, href)
    else epLoop html vs base rest first1

/-- Lean model of find_episode_for_date (lines 206-228): the outer none is the
    raised RuntimeError (program fetch failed); some none is the (None, None)
    return. -/
def find_episode_for_date (net : Net) (program_url : String) (d : PyDate) :
    Option (Option (String × String)) :=
  match net.fetchText program_url with
  | none => none
  | some html =>
    some (epLoop html.data (date_variants d) (base_of program_url.data)
      (findAnchors html.data litEpisode) none)

/-! ## The run loop (lines 273-468) -/

/-- A value of the heterogeneous row dictionary: the audio_ok, bulletin_ok and
    bulletin_len fields are booleans and an integer in every strategy record,
    but empty strings in the NO-DATA record. -/
inductive Cell where
  | str : String → Cell
  | bool : Bool → Cell
  | nat : Nat → Cell
deriving DecidableEq

/-- One ResolutionRecord, the dict appended to rows. -/
structure Row where
  timestamp : String
  rdate : String
  lang_code : String
  lang : String
  program_title : String
  program_url : String
  episode_title : String
  episode_url : String
  audio_ok : Cell
  audio_urls : String
  audio_sizes_kb : String
  bulletin_len : Cell
  bulletin_ok : Cell
  status : String
  issues : String
deriving DecidableEq

def joinSemi (l : List String) : String := String.intercalate ";" l

def joinIssues (l : List String) : String := String.intercalate "; " l

/-- One language entry of the configuration, with the optional keys the source
    reads with dict.get. -/
structure Language where
  code : String
  display_name : Option String
  uid : Option String
  audio_min_kb : Option Nat
  bulletin_min_chars : Option Nat
  batch : Option String
deriving DecidableEq

/-- The configuration fields the resolution engine reads (lines 274-292). -/
structure Config where
  site_base : String
  bulletin_optional_programs : List String
  audio_min_kb : Option Nat
  bulletin_min_chars : Option Nat
  languages : List Language

/-- One run of the engine: oracles, configuration, target date, and the
    timestamp rendering of datetime.now(). -/
structure Env where
  net : Net
  cfg : Config
  tgt : PyDate
  now : String

def rstripSlash (s : Chars) : Chars := (s.reverse.dropWhile (fun c => c == '/')).reverse

def dateSlash (d : PyDate) : String :=
  String.mk (padZ 4 d.year ++ "/".data ++ padZ 2 d.month ++ "/".data ++ padZ 2 d.day)

/-- Python date.isoformat(). -/
def isoDate (d : PyDate) : String :=
  String.mk (padZ 4 d.year ++ "-".data ++ padZ 2 d.month ++ "-".data ++ padZ 2 d.day)

/-- The per-language values computed at lines 298-305. -/
structure LangCtx where
  code : String
  display : String
  uid : String
  audioMin : Nat
  bulletinMin : Nat
  scheduleUrl : String
deriving DecidableEq

def mkLangCtx (E : Env) (lang : Language) : LangCtx :=
  { code := lang.code
    display := lang.display_name.getD lang.code
    uid := lang.uid.getD "4"
    audioMin := lang.audio_min_kb.getD (E.cfg.audio_min_kb.getD 2000)
    bulletinMin := lang.bulletin_min_chars.getD (E.cfg.bulletin_min_chars.getD 40)
    scheduleUrl := String.mk (rstripSlash E.cfg.site_base.data) ++ "/" ++ lang.code
      ++ "/programschedule?uid=" ++ lang.uid.getD "4" ++ "&date=" ++ dateSlash E.tgt }

/-- The lowered transcript-exemption allow-list (line 276). -/
def bulletinOptionalSet (cfg : Config) : List String :=
  cfg.bulletin_optional_programs.map (fun s => String.mk (s.data.map lowC))

/-- The status literal of an episode-backed record (lines 334, 379, 425). -/
def statusOf (res : CheckResult) : String :=
  if res.audio_ok && res.bulletin_ok then "OK" else "ISSUE"

/-- The record appended for a direct schedule episode (lines 335-345). -/
def rowDirect (E : Env) (ctx : LangCtx) (title url : String) (res : CheckResult) : Row :=
  { timestamp := E.now, rdate := isoDate E.tgt, lang_code := ctx.code, lang := ctx.display
    program_title := title, program_url := ctx.scheduleUrl
    episode_title := title, episode_url := url
    audio_ok := .bool res.audio_ok
    audio_urls := joinSemi res.audio_urls
    audio_sizes_kb := joinSemi (res.audio_sizes_kb.map (fun n => String.mk (decChars n)))
    bulletin_len := .nat res.bulletin_len, bulletin_ok := .bool res.bulletin_ok
    status := statusOf res, issues := joinIssues res.issues }

/-- The record appended when find_episode_for_date raises (lines 353-361). -/
def rowSNEerr (E : Env) (ctx : LangCtx) (title purl : String) : Row :=
  { timestamp := E.now, rdate := isoDate E.tgt, lang_code := ctx.code, lang := ctx.display
    program_title := title, program_url := purl
    episode_title := "", episode_url := ""
    audio_ok := .bool false, audio_urls := "", audio_sizes_kb := ""
    bulletin_len := .nat 0, bulletin_ok := .bool false
    status := "SCHEDULED-NO-EPISODE", issues := "find_episode error: program fetch failed: error" }

/-- The record appended when no episode link was found (lines 366-374). -/
def rowSNEnoEp (E : Env) (ctx : LangCtx) (title purl epTitle : String) : Row :=
  { timestamp := E.now, rdate := isoDate E.tgt, lang_code := ctx.code, lang := ctx.display
    program_title := title, program_url := purl
    episode_title := epTitle, episode_url := ""
    audio_ok := .bool false, audio_urls := "", audio_sizes_kb := ""
    bulletin_len := .nat 0, bulletin_ok := .bool false
    status := "SCHEDULED-NO-EPISODE", issues := "No episode link for target date" }

/-- The record appended for a program-page-resolved episode (lines 380-390). -/
def rowResolved (E : Env) (ctx : LangCtx) (title purl epTitle epUrl : String)
    (res : CheckResult) : Row :=
  { timestamp := E.now, rdate := isoDate E.tgt, lang_code := ctx.code, lang := ctx.display
    program_title := title, program_url := purl
    episode_title := epTitle, episode_url := epUrl
    audio_ok := .bool res.audio_ok
    audio_urls := joinSemi res.audio_urls
    audio_sizes_kb := joinSemi (res.audio_sizes_kb.map (fun n => String.mk (decChars n)))
    bulletin_len := .nat res.bulletin_len, bulletin_ok := .bool res.bulletin_ok
    status := statusOf res, issues := joinIssues res.issues }

/-- The record appended for a pid-recovered episode in strategy C
    (lines 426-436). -/
def rowCEpisode (E : Env) (ctx : LangCtx) (title progUrl epTitle epUrl : String)
    (res : CheckResult) : Row :=
  { timestamp := E.now, rdate := isoDate E.tgt, lang_code := ctx.code, lang := ctx.display
    program_title := title
    program_url := if progUrl == "" then ctx.scheduleUrl else progUrl
    episode_title := epTitle, episode_url := epUrl
    audio_ok := .bool res.audio_ok
    audio_urls := joinSemi res.audio_urls
    audio_sizes_kb := joinSemi (res.audio_sizes_kb.map (fun n => String.mk (decChars n)))
    bulletin_len := .nat res.bulletin_len, bulletin_ok := .bool res.bulletin_ok
    status := statusOf res, issues := joinIssues res.issues }

/-- The record appended for a raw audio asset in strategy C (lines 440-454):
    audio_ok is the byte-level size check of line 404, bulletin_ok the
    allow-list membership of line 440. -/
def rowCRaw (E : Env) (ctx : LangCtx) (title audioUrl : String) (size : Nat) : Row :=
  { timestamp := E.now, rdate := isoDate E.tgt, lang_code := ctx.code, lang := ctx.display
    program_title := title, program_url := ctx.scheduleUrl
    episode_title := title, episode_url := audioUrl
    audio_ok := .bool (decide (ctx.audioMin * 1024 ≤ size))
    audio_urls := audioUrl
    audio_sizes_kb := if size == 0 then "" else String.mk (decChars (size / 1024))
    bulletin_len := .nat 0
    bulletin_ok := .bool ((bulletinOptionalSet E.cfg).contains (String.mk (norm_title title.data)))
    status := if decide (ctx.audioMin * 1024 ≤ size)
        && (bulletinOptionalSet E.cfg).contains (String.mk (norm_title title.data)) then "OK"
      else "ISSUE"
    issues := if (bulletinOptionalSet E.cfg).contains (String.mk (norm_title title.data)) then
        "bulletin optional for this program"
      else "No programnews found for this program on schedule" }

/-- The NO-DATA record (lines 459-468). -/
def rowNoData (E : Env) (ctx : LangCtx) : Row :=
  { timestamp := E.now, rdate := isoDate E.tgt, lang_code := ctx.code, lang := ctx.display
    program_title := "", program_url := ctx.scheduleUrl
    episode_title := "", episode_url := ""
    audio_ok := .str "", audio_urls := "", audio_sizes_kb := ""
    bulletin_len := .str "", bulletin_ok := .str ""
    status := "NO-DATA", issues := "No program/episode/mp3 found from schedule" }

/-- The body of the A/B loop for one schedule candidate (lines 327-392): none
    when neither branch fires (then no record is appended and the produced
    flag is untouched). -/
def abCandidateRow (E : Env) (ctx : LangCtx) (it : LinkItem) : Option Row :=
  if it.kind == "episode" && hasCS litEpisode it.url.data then
    some (rowDirect E ctx (String.mk (pyStrip it.title.data)) it.url
      (check_episode E.net it.url ctx.audioMin ctx.bulletinMin))
  else if it.kind == "program" && hasCS litProgram it.url.data then
    match find_episode_for_date E.net it.url E.tgt with
    | none => some (rowSNEerr E ctx (String.mk (pyStrip it.title.data)) it.url)
    | some none => some (rowSNEnoEp E ctx (String.mk (pyStrip it.title.data)) it.url "")
    | some (some (t, u)) =>
      if u == "" then some (rowSNEnoEp E ctx (String.mk (pyStrip it.title.data)) it.url t)
      else some (rowResolved E ctx (String.mk (pyStrip it.title.data)) it.url t u
        (check_episode E.net u ctx.audioMin ctx.bulletinMin))
  else none

/-- The address built for a recovered pid (line 414). -/
def progUrlOf (E : Env) (ctx : LangCtx) (pid : String) : String :=
  String.mk (rstripSlash E.cfg.site_base.data) ++ "/" ++ ctx.code
    ++ "/program?uid=" ++ ctx.uid ++ "&pid=" ++ pid

/-- The body of the strategy C loop for one audio asset (lines 399-455):
    exactly one record per asset. -/
def cAssetRow (E : Env) (ctx : LangCtx) (a : AudioItem) : Row :=
  let title := String.mk (pyStrip a.title.data)
  let size := E.net.fetchSize a.audio_url
  match pid_from_audio_url a.audio_url with
  | some pid =>
    match find_episode_for_date E.net (progUrlOf E ctx pid) E.tgt with
    | none => rowCRaw E ctx title a.audio_url size
    | some none => rowCRaw E ctx title a.audio_url size
    | some (some (t2, u2)) =>
      if u2 == "" then rowCRaw E ctx title a.audio_url size
      else rowCEpisode E ctx title (progUrlOf E ctx pid)
        (if t2 == "" then title else t2) u2
        (check_episode E.net u2 ctx.audioMin ctx.bulletinMin)
  | none => rowCRaw E ctx title a.audio_url size

/-- Lean model of the schedule fetch with its retry (lines 309-320): items,
    html, base.  fetchText is a pure function of the address, so the retried
    call inside the except branch returns the same outcome as the first. -/
def scheduleState (E : Env) (ctx : LangCtx) : List LinkItem × String × String :=
  match E.net.fetchText ctx.scheduleUrl with
  | some html =>
    (find_links_from_schedule html (String.mk (base_of ctx.scheduleUrl.data)), html,
     String.mk (base_of ctx.scheduleUrl.data))
  | none =>
    match E.net.fetchText ctx.scheduleUrl with
    | some html => ([], html, String.mk (base_of ctx.scheduleUrl.data))
    | none => ([], "", "")

/-- The records of the A/B pass: the loop appends exactly the some results of
    abCandidateRow, in schedule order. -/
def abRows (E : Env) (ctx : LangCtx) (items : List LinkItem) : List Row :=
  items.filterMap (abCandidateRow E ctx)

/-- The records of the strategy C pass (lines 394-455): guarded by
    `not produced_any_for_lang and html`. -/
def cRowsOf (E : Env) (ctx : LangCtx) (abEmpty : Bool) (html base : String) : List Row :=
  if abEmpty && html != "" then
    (find_audio_items_from_schedule html base).map (cAssetRow E ctx)
  else []

/-- The records strategy A/B emits for one language. -/
def langAB (E : Env) (lang : Language) : List Row :=
  abRows E (mkLangCtx E lang) (scheduleState E (mkLangCtx E lang)).1

/-- The records strategy C emits for one language (lines 394-455). -/
def langC (E : Env) (lang : Language) : List Row :=
  cRowsOf E (mkLangCtx E lang) (langAB E lang).isEmpty
    (scheduleState E (mkLangCtx E lang)).2.1 (scheduleState E (mkLangCtx E lang)).2.2

/-- Lean model of the per-language body of run (lines 297-468): the A/B
    records, then the strategy C records, then the NO-DATA fallback when no
    strategy produced anything. -/
def processLang (E : Env) (lang : Language) : List Row :=
  langAB E lang ++ langC E lang
    ++ (if (langAB E lang).isEmpty && (langC E lang).isEmpty
        then [rowNoData E (mkLangCtx E lang)] else [])

def pyUpper (s : String) : String := String.mk (s.data.map Char.toUpper)

/-- Lean model of the batch filter (lines 288-289). -/
def activeLangs (cfg : Config) (batch : Option String) : List Language :=
  match batch with
  | none => cfg.languages
  | some b => cfg.languages.filter (fun l => pyUpper (l.batch.getD "") == pyUpper b)

/-- Lean model of the rows accumulated by run (lines 294-468): the languages
    are processed sequentially and each appends its own records. -/
def runRows (E : Env) (batch : Option String) : List Row :=
  (activeLangs E.cfg batch).flatMap (processLang E)

/-- Declarative reading of the two trailing-filename patterns of
    pid_from_audio_url: the effective subject decomposes as
    anything ++ "/" ++ 8 digits ++ "_" ++ 3-4 digits ++ "_" ++ 3-6 digits
    ++ (for the first pattern an underscore and two ASCII letters) ++ ".mp3"
    (extension compared case-insensitively). -/
def pidPatternAt (withLoc : Bool) (core : Chars) : Prop :=
  ∃ pre d8 slot idp loc ext : Chars,
    core = pre ++ ['/'] ++ d8 ++ ['_'] ++ slot ++ ['_'] ++ idp ++ loc ++ ext
    ∧ d8.length = 8 ∧ allDigits d8 = true
    ∧ (slot.length = 3 ∨ slot.length = 4) ∧ allDigits slot = true
    ∧ 3 ≤ idp.length ∧ idp.length ≤ 6 ∧ allDigits idp = true
    ∧ (if withLoc then
         ∃ l1 l2, loc = ['_', l1, l2] ∧ isAsciiLetter l1 = true ∧ isAsciiLetter l2 = true
       else loc = [])
    ∧ ext.length = 4 ∧ pfxCI (".mp3".data) ext = true

/-! ## Lemmas: decimal rendering -/

/-- The value read back from a digit string. -/
def digitsVal (s : Chars) : Nat := s.foldl (fun a c => a * 10 + (c.toNat - 48)) 0

/-! ## Concrete runs used to exercise the engine -/

def langEn : Language :=
  { code := "en", display_name := some "English", uid := none,
    audio_min_kb := none, bulletin_min_chars := none, batch := none }

def cfgEn : Config :=
  { site_base := "https://www.rti.org.tw", bulletin_optional_programs := [],
    audio_min_kb := none, bulletin_min_chars := none, languages := [langEn] }

/-- The schedule address mkLangCtx builds for langEn on 2025-09-01. -/
def schedUrlEn : String :=
  "https://www.rti.org.tw/en/programschedule?uid=4&date=2025/09/01"

/-- A run in which every network fetch fails. -/
def envND : Env :=
  { net := { fetchText := fun _ => none, fetchSize := fun _ => 0 }
    cfg := cfgEn, tgt := ⟨2025, 9, 1⟩, now := "2025-09-01 08:00" }

/-- A run whose schedule markup holds one episode anchor and whose episode
    page fetch fails. -/
def envA : Env :=
  { net :=
      { fetchText := fun u =>
          if u == schedUrlEn then some "<a href=\"/en/programnews?pid=42\">News</a>" else none,
        fetchSize := fun _ => 0 }
    cfg := cfgEn, tgt := ⟨2025, 9, 1⟩, now := "2025-09-01 08:00" }

/-- The single record envA produces for langEn. -/
def rowA0 : Row :=
  rowDirect envA (mkLangCtx envA langEn) "News" "https://www.rti.org.tw/en/programnews?pid=42"
    (check_episode envA.net "https://www.rti.org.tw/en/programnews?pid=42" 2000 40)

/-- A run whose schedule markup holds a plain audio address and no anchors. -/
def envC : Env :=
  { net :=
      { fetchText := fun u =>
          if u == schedUrlEn then some "ON AIR https://x.test/a.mp3" else none,
        fetchSize := fun _ => 0 }
    cfg := cfgEn, tgt := ⟨2025, 9, 1⟩, now := "2025-09-01 08:00" }

/-- The (label text, absolute address) pair the episode-lookup loop builds for
    an anchor. -/
def epPair (base : Chars) (a : Anchor) : String × String :=
  (String.mk (strip_tags a.ainner), String.mk (absolutizeC base a.aurl))

/-- The declarative reading of the episode choice: the first episode anchor in
    document order whose label or ±200-character context holds a date variant,
    else the first episode anchor encountered. -/
def chosenEpisode (html : Chars) (vs : List String) (base : Chars) :
    Option (String × String) :=
  match (findAnchors html litEpisode).find? (dayMatch html vs) with
  | some a => some (epPair base a)
  | none => (findAnchors html litEpisode).head?.map (epPair base)

/-- A program page holding an undated and a dated episode anchor. -/
def progHtml : String :=
  "<a href=\"/en/programnews?pid=7&d=1\">Old</a> <a href=\"/en/programnews?pid=7&d=2\">Sep 1, 2025</a>"

def progUrl7 : String := "https://www.rti.org.tw/en/program?pid=7"

/-- A network serving only the program page above. -/
def netP : Net :=
  { fetchText := fun u => if u == progUrl7 then some progHtml else none,
    fetchSize := fun _ => 0 }

/-- A configuration whose allow-list entry has a doubled space. -/
def cfgC8 : Config :=
  { site_base := "https://www.rti.org.tw", bulletin_optional_programs := ["ON  AIR"],
    audio_min_kb := none, bulletin_min_chars := none, languages := [langEn] }

/-- A run whose schedule markup holds one plain audio address titled by the
    ON AIR key, with large probed sizes. -/
def envC8 : Env :=
  { net :=
      { fetchText := fun u =>
          if u == schedUrlEn then some "ON AIR https://x.test/a.mp3" else none,
        fetchSize := fun _ => 3000000 }
    cfg := cfgC8, tgt := ⟨2025, 9, 1⟩, now := "2025-09-01 08:00" }

/-- The audio asset envC8's schedule yields. -/
def aC8 : AudioItem := { title := "ON AIR", audio_url := "https://x.test/a.mp3" }

/-- The record strategy C emits for that asset. -/
def rowC8 : Row := cAssetRow envC8 (mkLangCtx envC8 langEn) aC8

/-! ## Claim C6: the date variants -/

/-- Comparison rendering written from the spec: ISO with dashes (YYYY-MM-DD). -/
def specIsoDash (d : PyDate) : String :=
  String.mk (padZ 4 d.year ++ "-".data ++ padZ 2 d.month ++ "-".data ++ padZ 2 d.day)

/-- Comparison rendering written from the spec: ISO with slashes (YYYY/MM/DD). -/
def specIsoSlash (d : PyDate) : String :=
  String.mk (padZ 4 d.year ++ "/".data ++ padZ 2 d.month ++ "/".data ++ padZ 2 d.day)

/-- Comparison rendering written from the spec: day-first slashes (DD/MM/YYYY). -/
def specDayFirst (d : PyDate) : String :=
  String.mk (padZ 2 d.day ++ "/".data ++ padZ 2 d.month ++ "/".data ++ padZ 4 d.year)

/-- Comparison rendering written from the spec: month-first slashes (MM/DD/YYYY). -/
def specMonthFirst (d : PyDate) : String :=
  String.mk (padZ 2 d.month ++ "/".data ++ padZ 2 d.day ++ "/".data ++ padZ 4 d.year)

/-- Comparison rendering written from the spec: abbreviated-month English "Mon D, YYYY". -/
def specMonAbbr (d : PyDate) : String :=
  String.mk ((monthsShort.getD (d.month - 1) []) ++ " ".data ++ decChars d.day
    ++ ", ".data ++ decChars d.year)

/-- Comparison rendering written from the spec: full-month English "Month D, YYYY". -/
def specMonFull (d : PyDate) : String :=
  String.mk ((monthsLong.getD (d.month - 1) []) ++ " ".data ++ decChars d.day
    ++ ", ".data ++ decChars d.year)

theorem decDigit_toNat (n : Nat) : (decDigit n).toNat = 48 + n % 10 := by
  have h : n % 10 < 10 := Nat.mod_lt _ (by norm_num)
  simp only [decDigit]
  have h1 : n % 10 = 0 ∨ n % 10 = 1 ∨ n % 10 = 2 ∨ n % 10 = 3 ∨ n % 10 = 4 ∨ n % 10 = 5
      ∨ n % 10 = 6 ∨ n % 10 = 7 ∨ n % 10 = 8 ∨ n % 10 = 9 := by omega
  rcases h1 with h1 | h1 | h1 | h1 | h1 | h1 | h1 | h1 | h1 | h1 <;> rw [h1] <;> rfl

theorem digitsVal_append_last (s : Chars) (c : Char) :
    digitsVal (s ++ [c]) = digitsVal s * 10 + (c.toNat - 48) := by
  simp [digitsVal, List.foldl_append]

theorem digitsVal_decCharsAux (fuel n : Nat) (h : n ≤ fuel) :
    digitsVal (decCharsAux fuel n) = n := by
  induction fuel generalizing n with
  | zero =>
    interval_cases n
    simp [decCharsAux, digitsVal, decDigit_toNat]
  | succ fuel ih =>
    by_cases hn : n < 10
    · simp only [decCharsAux, if_pos hn, digitsVal, List.foldl]
      have := decDigit_toNat n
      omega
    · simp only [decCharsAux, if_neg hn]
      rw [digitsVal_append_last]
      have hd : n / 10 ≤ fuel := by omega
      rw [ih _ hd, decDigit_toNat]
      omega

theorem digitsVal_decChars (n : Nat) : digitsVal (decChars n) = n :=
  digitsVal_decCharsAux n n (Nat.le_refl n)

theorem decCharsAux_digit (fuel n : Nat) :
    ∀ c ∈ decCharsAux fuel n, 48 ≤ c.toNat ∧ c.toNat ≤ 57 := by
  induction fuel generalizing n with
  | zero =>
    intro c hc
    simp only [decCharsAux, List.mem_singleton] at hc
    subst hc
    rw [decDigit_toNat]
    omega
  | succ fuel ih =>
    intro c hc
    by_cases hn : n < 10
    · simp only [decCharsAux, if_pos hn, List.mem_singleton] at hc
      subst hc; rw [decDigit_toNat]; omega
    · simp only [decCharsAux, if_neg hn, List.mem_append, List.mem_singleton] at hc
      rcases hc with hc | hc
      · exact ih _ _ hc
      · subst hc; rw [decDigit_toNat]; omega

theorem decChars_digit (n : Nat) : ∀ c ∈ decChars n, 48 ≤ c.toNat ∧ c.toNat ≤ 57 :=
  decCharsAux_digit n n

theorem decCharsAux_len_le (fuel n k : Nat) (h : n ≤ fuel) (hk : n < 10 ^ k)
    (hk1 : 1 ≤ k) : (decCharsAux fuel n).length ≤ k := by
  induction fuel generalizing n k with
  | zero => interval_cases n; simpa [decCharsAux] using hk1
  | succ fuel ih =>
    by_cases hn : n < 10
    · simpa [decCharsAux, if_pos hn] using hk1
    · simp only [decCharsAux, if_neg hn, List.length_append, List.length_singleton]
      have hk2 : 2 ≤ k := by
        by_contra hcon
        interval_cases k <;> omega
      have hq : n / 10 < 10 ^ (k - 1) := by
        rw [Nat.div_lt_iff_lt_mul (by norm_num)]
        calc n < 10 ^ k := hk
        _ = 10 ^ (k - 1) * 10 := by
              rw [← Nat.pow_succ]
              congr 1
              omega
      have := ih (n / 10) (k - 1) (by omega) hq (by omega)
      omega

theorem decChars_len_le {n k : Nat} (hk : n < 10 ^ k) (hk1 : 1 ≤ k) :
    (decChars n).length ≤ k :=
  decCharsAux_len_le n n k (Nat.le_refl n) hk hk1

theorem digitsVal_replicate_zero (m : Nat) (s : Chars) :
    digitsVal (List.replicate m '0' ++ s) = digitsVal s := by
  induction m with
  | zero => simp
  | succ m ih => simpa [digitsVal, List.replicate_succ] using ih

theorem digitsVal_padZ (w n : Nat) : digitsVal (padZ w n) = n := by
  rw [padZ, digitsVal_replicate_zero, digitsVal_decChars]

theorem padZ_inj {w a b : Nat} (h : padZ w a = padZ w b) : a = b := by
  have := congrArg digitsVal h
  rwa [digitsVal_padZ, digitsVal_padZ] at this

theorem padZ_len {w n : Nat} (h : (decChars n).length ≤ w) : (padZ w n).length = w := by
  simp only [padZ, List.length_append, List.length_replicate]
  omega

theorem padZ_digit (w n : Nat) : ∀ c ∈ padZ w n, 48 ≤ c.toNat ∧ c.toNat ≤ 57 := by
  intro c hc
  rcases List.mem_append.mp hc with hc | hc
  · rw [List.eq_of_mem_replicate hc]; decide
  · exact decChars_digit n c hc

theorem padZ2_len {n : Nat} (h : n ≤ 99) : (padZ 2 n).length = 2 :=
  padZ_len (decChars_len_le (by omega : n < 10 ^ 2) (by omega))

theorem padZ4_len {n : Nat} (h : n ≤ 9999) : (padZ 4 n).length = 4 :=
  padZ_len (decChars_len_le (by omega : n < 10 ^ 4) (by omega))

theorem digitsVal_foldl_init (a : Nat) (t : Chars) :
    t.foldl (fun a c => a * 10 + (c.toNat - 48)) a = a * 10 ^ t.length + digitsVal t := by
  induction t generalizing a with
  | nil => simp [digitsVal]
  | cons c cs ih =>
    have expand : (c :: cs).foldl (fun a c => a * 10 + (c.toNat - 48)) a
        = cs.foldl (fun a c => a * 10 + (c.toNat - 48)) (a * 10 + (c.toNat - 48)) := rfl
    have hv : digitsVal (c :: cs) = (c.toNat - 48) * 10 ^ cs.length + digitsVal cs := by
      have e2 : digitsVal (c :: cs)
          = cs.foldl (fun a c => a * 10 + (c.toNat - 48)) (0 * 10 + (c.toNat - 48)) := rfl
      rw [e2, ih]
      ring_nf
    rw [expand, ih, hv, List.length_cons, pow_succ]
    ring

theorem digitsVal_append (s t : Chars) :
    digitsVal (s ++ t) = digitsVal s * 10 ^ t.length + digitsVal t := by
  simp only [digitsVal, List.foldl_append]
  exact digitsVal_foldl_init _ t

theorem ne_of_get? {a b : Chars} {i : Nat} {ca cb : Char}
    (ha : a.get? i = some ca) (hb : b.get? i = some cb) (h : ca ≠ cb) : a ≠ b := by
  intro he
  subst he
  rw [ha] at hb
  exact h (Option.some.inj hb)

theorem get?_append_at {a : Chars} {n : Nat} (b : Chars) (h : a.length = n) {c : Char}
    (hb : b.get? 0 = some c) : (a ++ b).get? n = some c := by
  rw [List.get?_append_right h.le, h, Nat.sub_self]
  exact hb

theorem get?_append_in {a : Chars} (b : Chars) {i : Nat} (h : i < a.length) {c : Char}
    (ha : a.get? i = some c) : (a ++ b).get? i = some c := by
  rw [List.get?_append h]
  exact ha

theorem padZ_get?_digit {w n i : Nat} (h : i < (padZ w n).length) :
    ∃ c, (padZ w n).get? i = some c ∧ 48 ≤ c.toNat ∧ c.toNat ≤ 57 := by
  rcases List.get?_eq_get h with hg
  exact ⟨_, hg, padZ_digit w n _ (List.get?_mem hg)⟩

theorem monthsShort_head (m : Nat) (h1 : 1 ≤ m) (h2 : m ≤ 12) :
    ∃ c, (monthsShort.getD (m-1) []).get? 0 = some c ∧ 58 ≤ c.toNat ∧ c.toNat ≤ 90
      ∧ 0 < (monthsShort.getD (m-1) []).length := by
  interval_cases m <;> exact ⟨_, rfl, by decide, by decide, by decide⟩

theorem monthsLong_head (m : Nat) (h1 : 1 ≤ m) (h2 : m ≤ 12) :
    ∃ c, (monthsLong.getD (m-1) []).get? 0 = some c ∧ 58 ≤ c.toNat ∧ c.toNat ≤ 90
      ∧ 0 < (monthsLong.getD (m-1) []).length := by
  interval_cases m <;> exact ⟨_, rfl, by decide, by decide, by decide⟩

theorem months_len_ne (m : Nat) (h1 : 1 ≤ m) (h2 : m ≤ 12) (h5 : m ≠ 5) :
    (monthsShort.getD (m-1) []).length ≠ (monthsLong.getD (m-1) []).length := by
  interval_cases m
  · decide
  · decide
  · decide
  · decide
  · exact absurd rfl h5
  · decide
  · decide
  · decide
  · decide
  · decide
  · decide
  · decide

/-- C6.  The claim as frozen asserts that the six variants are always pairwise
    distinct; they coincide at positions 3/4 when day = month and at positions
    5/6 in May, so the distinctness holds exactly when day ≠ month and the
    month is not May.  The renderings and their fixed order are as claimed. -/
theorem claim_C6 (d : PyDate) (hy : d.year ≤ 9999) (hm1 : 1 ≤ d.month)
    (hm : d.month ≤ 12) (hd1 : 1 ≤ d.day) (hd : d.day ≤ 31) :
    date_variants d = [specIsoDash d, specIsoSlash d, specDayFirst d,
      specMonthFirst d, specMonAbbr d, specMonFull d]
    ∧ (date_variants d).length = 6
    ∧ ((date_variants d).Pairwise (· ≠ ·) ↔ (d.day ≠ d.month ∧ d.month ≠ 5)) := by
  have hA4 : (padZ 4 d.year).length = 4 := padZ4_len hy
  have hB2 : (padZ 2 d.month).length = 2 := padZ2_len (by omega)
  have hC2 : (padZ 2 d.day).length = 2 := padZ2_len (by omega)
  refine ⟨rfl, rfl, ?_⟩
  constructor
  · -- distinctness forces day ≠ month and month ≠ May
    intro hp
    rw [date_variants] at hp
    simp only [List.pairwise_cons] at hp
    constructor
    · intro hdm
      refine hp.2.2.1 _ (List.mem_cons_self _ _) ?_
      rw [hdm]
    · intro hm5
      refine hp.2.2.2.2.1 _ (List.mem_cons_self _ _) ?_
      rw [hm5]
      rw [show (monthsShort.getD (5-1) ([] : Chars)) = monthsLong.getD (5-1) [] from rfl]
  · -- day ≠ month and month ≠ May give pairwise distinctness
    rintro ⟨hdm, hm5⟩
    obtain ⟨cS, hcS, hcS1, hcS2, hSpos⟩ := monthsShort_head d.month hm1 hm
    obtain ⟨cL, hcL, hcL1, hcL2, hLpos⟩ := monthsLong_head d.month hm1 hm
    obtain ⟨a0, ha0, ha01, ha02⟩ := padZ_get?_digit (w := 4) (n := d.year) (i := 0) (by omega)
    obtain ⟨a2, ha2, ha21, ha22⟩ := padZ_get?_digit (w := 4) (n := d.year) (i := 2) (by omega)
    obtain ⟨b0, hb0, hb01, hb02⟩ := padZ_get?_digit (w := 2) (n := d.month) (i := 0) (by omega)
    obtain ⟨c0, hc0, hc01, hc02⟩ := padZ_get?_digit (w := 2) (n := d.day) (i := 0) (by omega)
    have hslen : ("/".data : Chars).length = 1 := rfl
    have hsval : digitsVal ("/".data) = 0 := by decide
    -- the day-first and month-first variants differ: read back their values
    have swapNe :
        padZ 2 d.day ++ ("/".data ++ (padZ 2 d.month ++ ("/".data ++ padZ 4 d.year)))
          ≠ padZ 2 d.month ++ ("/".data ++ (padZ 2 d.day ++ ("/".data ++ padZ 4 d.year))) := by
      intro he
      have hv := congrArg digitsVal he
      simp only [digitsVal_append, List.length_append, hA4, hB2, hC2, hslen, hsval,
        digitsVal_padZ] at hv
      norm_num at hv
      exact hdm (by omega)
    -- the two English variants differ in length outside May
    have lenNe :
        (monthsShort.getD (d.month-1) [])
            ++ (" ".data ++ (decChars d.day ++ (", ".data ++ decChars d.year)))
          ≠ (monthsLong.getD (d.month-1) [])
            ++ (" ".data ++ (decChars d.day ++ (", ".data ++ decChars d.year))) := by
      intro he
      have hl := congrArg List.length he
      simp only [List.length_append] at hl
      exact months_len_ne d.month hm1 hm hm5 (by omega)
    rw [date_variants]
    refine List.Pairwise.cons ?_ (List.Pairwise.cons ?_ (List.Pairwise.cons ?_
      (List.Pairwise.cons ?_ (List.Pairwise.cons ?_ (List.Pairwise.cons
        (fun x hx => absurd hx (List.not_mem_nil x)) List.Pairwise.nil)))))
    · intro x hx
      simp only [List.mem_cons, List.not_mem_nil, or_false] at hx
      rcases hx with rfl | rfl | rfl | rfl | rfl
      · refine String.ne_of_data_ne ?_
        show _ ≠ _
        simp only [List.append_assoc]
        exact ne_of_get? (get?_append_at _ hA4 rfl) (get?_append_at _ hA4 rfl) (by decide)
      · refine String.ne_of_data_ne ?_
        show _ ≠ _
        simp only [List.append_assoc]
        exact ne_of_get? (get?_append_in _ (by omega) ha2) (get?_append_at _ hC2 rfl)
          (by intro he; rw [he] at ha21; revert ha21; decide)
      · refine String.ne_of_data_ne ?_
        show _ ≠ _
        simp only [List.append_assoc]
        exact ne_of_get? (get?_append_in _ (by omega) ha2) (get?_append_at _ hB2 rfl)
          (by intro he; rw [he] at ha21; revert ha21; decide)
      · refine String.ne_of_data_ne ?_
        show _ ≠ _
        simp only [List.append_assoc]
        exact ne_of_get? (get?_append_in _ (by omega) ha0) (get?_append_in _ hSpos hcS)
          (by intro he; rw [he] at ha02; omega)
      · refine String.ne_of_data_ne ?_
        show _ ≠ _
        simp only [List.append_assoc]
        exact ne_of_get? (get?_append_in _ (by omega) ha0) (get?_append_in _ hLpos hcL)
          (by intro he; rw [he] at ha02; omega)
    · intro x hx
      simp only [List.mem_cons, List.not_mem_nil, or_false] at hx
      rcases hx with rfl | rfl | rfl | rfl
      · refine String.ne_of_data_ne ?_
        show _ ≠ _
        simp only [List.append_assoc]
        exact ne_of_get? (get?_append_in _ (by omega) ha2) (get?_append_at _ hC2 rfl)
          (by intro he; rw [he] at ha21; revert ha21; decide)
      · refine String.ne_of_data_ne ?_
        show _ ≠ _
        simp only [List.append_assoc]
        exact ne_of_get? (get?_append_in _ (by omega) ha2) (get?_append_at _ hB2 rfl)
          (by intro he; rw [he] at ha21; revert ha21; decide)
      · refine String.ne_of_data_ne ?_
        show _ ≠ _
        simp only [List.append_assoc]
        exact ne_of_get? (get?_append_in _ (by omega) ha0) (get?_append_in _ hSpos hcS)
          (by intro he; rw [he] at ha02; omega)
      · refine String.ne_of_data_ne ?_
        show _ ≠ _
        simp only [List.append_assoc]
        exact ne_of_get? (get?_append_in _ (by omega) ha0) (get?_append_in _ hLpos hcL)
          (by intro he; rw [he] at ha02; omega)
    · intro x hx
      simp only [List.mem_cons, List.not_mem_nil, or_false] at hx
      rcases hx with rfl | rfl | rfl
      · refine String.ne_of_data_ne ?_
        show _ ≠ _
        simp only [List.append_assoc]
        exact swapNe
      · refine String.ne_of_data_ne ?_
        show _ ≠ _
        simp only [List.append_assoc]
        exact ne_of_get? (get?_append_in _ (by omega) hc0) (get?_append_in _ hSpos hcS)
          (by intro he; rw [he] at hc02; omega)
      · refine String.ne_of_data_ne ?_
        show _ ≠ _
        simp only [List.append_assoc]
        exact ne_of_get? (get?_append_in _ (by omega) hc0) (get?_append_in _ hLpos hcL)
          (by intro he; rw [he] at hc02; omega)
    · intro x hx
      simp only [List.mem_cons, List.not_mem_nil, or_false] at hx
      rcases hx with rfl | rfl
      · refine String.ne_of_data_ne ?_
        show _ ≠ _
        simp only [List.append_assoc]
        exact ne_of_get? (get?_append_in _ (by omega) hb0) (get?_append_in _ hSpos hcS)
          (by intro he; rw [he] at hb02; omega)
      · refine String.ne_of_data_ne ?_
        show _ ≠ _
        simp only [List.append_assoc]
        exact ne_of_get? (get?_append_in _ (by omega) hb0) (get?_append_in _ hLpos hcL)
          (by intro he; rw [he] at hb02; omega)
    · intro x hx
      simp only [List.mem_cons, List.not_mem_nil, or_false] at hx
      rcases hx with rfl
      refine String.ne_of_data_ne ?_
      show _ ≠ _
      simp only [List.append_assoc]
      exact lenNe

/-- C6 counterexample: on 2025-05-05 the day-first and month-first renderings
    coincide and the two English renderings coincide, so the six variants are
    not pairwise distinct as the claim states. -/
theorem claim_C6_cex :
    (date_variants ⟨2025, 5, 5⟩).get? 2 = some "05/05/2025"
    ∧ (date_variants ⟨2025, 5, 5⟩).get? 3 = some "05/05/2025"
    ∧ (date_variants ⟨2025, 5, 5⟩).get? 4 = some "May 5, 2025"
    ∧ (date_variants ⟨2025, 5, 5⟩).get? 5 = some "May 5, 2025"
    ∧ ¬ (date_variants ⟨2025, 5, 5⟩).Pairwise (· ≠ ·) := by
  refine ⟨by decide, by decide, by decide, by decide, ?_⟩
  intro hp
  rw [date_variants] at hp
  simp only [List.pairwise_cons] at hp
  exact hp.2.2.1 _ (List.mem_cons_self _ _) (by decide)

/-- Witness for claim_C6 at the concrete date 2025-09-01. -/
theorem claim_C6_witness :
    (date_variants ⟨2025, 9, 1⟩).Pairwise (· ≠ ·)
    ∧ (date_variants ⟨2025, 9, 1⟩).length = 6 := by
  have h := claim_C6 ⟨2025, 9, 1⟩ (by decide) (by decide) (by decide) (by decide) (by decide)
  exact ⟨h.2.2.mpr (by decide), h.2.1⟩

/-! ## Claim C7: pid_from_audio_url -/

theorem lstripZeros_spec (s : Chars) :
    lstripZeros s = ['0'] ∨ ∃ c r, lstripZeros s = c :: r ∧ c ≠ '0' := by
  induction s with
  | nil => left; rfl
  | cons c cs ih =>
    by_cases hc : c = '0'
    · subst hc
      have he : lstripZeros ('0' :: cs) = lstripZeros cs := by
        simp [lstripZeros, List.dropWhile]
      rw [he]
      exact ih
    · right
      refine ⟨c, cs, ?_, hc⟩
      have hb : (c == '0') = false := by simp [hc]
      have hdw : List.dropWhile (fun x => x == '0') (c :: cs) = c :: cs := by
        simp [List.dropWhile, hb]
      simp [lstripZeros, hdw]

theorem drop_eq_cons : ∀ (l : Chars) (n : Nat) (c : Char), l.get? n = some c →
    l.drop n = c :: l.drop (n+1) := by
  intro l
  induction l with
  | nil => intro n c h; simp at h
  | cons a as ih =>
    intro n c h
    cases n with
    | zero =>
      simp only [List.get?] at h
      simp [Option.some.inj h]
    | succ n =>
      simp only [List.get?] at h
      simpa [List.drop] using ih n c h

theorem findSome?_some_mem {α β : Type} {f : α → Option β} :
    ∀ {l : List α} {g : β}, l.findSome? f = some g → ∃ x ∈ l, f x = some g := by
  intro l
  induction l with
  | nil => intro g h; simp [List.findSome?] at h
  | cons a as ih =>
    intro g h
    rw [List.findSome?] at h
    cases hf : f a with
    | some b => rw [hf] at h; exact ⟨a, List.mem_cons_self a as, hf.trans h⟩
    | none => rw [hf] at h; obtain ⟨x, hx, hfx⟩ := ih h; exact ⟨x, List.mem_cons_of_mem a hx, hfx⟩

theorem findSome?_ne_none {α β : Type} {f : α → Option β} :
    ∀ {l : List α} {x : α} {g : β}, x ∈ l → f x = some g → l.findSome? f ≠ none := by
  intro l
  induction l with
  | nil => intro x g h; simp at h
  | cons a as ih =>
    intro x g hx hfx
    rw [List.findSome?]
    cases hf : f a with
    | some b => simp
    | none =>
      rcases List.mem_cons.mp hx with rfl | hx2
      · rw [hf] at hfx; exact absurd hfx (by simp)
      · exact ih hx2 hfx

theorem pidScanAux_some {core : Chars} {w : Bool} :
    ∀ (fuel i : Nat) {g : Chars}, pidScanAux core w i fuel = some g →
      ∃ j, pidTryAt core w j = some g := by
  intro fuel
  induction fuel with
  | zero => intro i g h; simp [pidScanAux] at h
  | succ fuel ih =>
    intro i g h
    rw [pidScanAux] at h
    split at h
    · cases htry : pidTryAt core w i with
      | some r => rw [htry] at h; exact ⟨i, htry.trans h⟩
      | none => rw [htry] at h; exact ih _ h
    · exact absurd h (by simp)

theorem pidScanAux_none {core : Chars} {w : Bool} :
    ∀ (fuel i : Nat), pidScanAux core w i fuel = none →
      ∀ j, i ≤ j → j < core.length → j < i + fuel → pidTryAt core w j = none := by
  intro fuel
  induction fuel with
  | zero => intro i _ j _ _ h3; omega
  | succ fuel ih =>
    intro i h j h1 h2 h3
    rw [pidScanAux] at h
    split at h
    · cases htry : pidTryAt core w i with
      | some r => rw [htry] at h; exact absurd h (by simp)
      | none =>
        rw [htry] at h
        rcases Nat.eq_or_lt_of_le h1 with rfl | hlt
        · exact htry
        · exact ih (i+1) h j hlt h2 (by omega)
    · omega

/-- Soundness of one combo alternative: a successful check decomposes the
    post-slash suffix as the declarative pattern demands. -/
theorem pidComboCheck_sound {t : Chars} {w : Bool} {sl il : Nat} {g : Chars}
    (h : pidComboCheck t w sl il = some g) :
    ∃ d8 slot idp loc ext : Chars,
      t = d8 ++ ['_'] ++ slot ++ ['_'] ++ idp ++ loc ++ ext
      ∧ d8.length = 8 ∧ allDigits d8 = true
      ∧ slot.length = sl ∧ allDigits slot = true
      ∧ idp.length = il ∧ allDigits idp = true
      ∧ (if w then
           ∃ l1 l2, loc = ['_', l1, l2] ∧ isAsciiLetter l1 = true ∧ isAsciiLetter l2 = true
         else loc = [])
      ∧ ext.length = 4 ∧ pfxCI (".mp3".data) ext = true
      ∧ g = idp := by
  have hsliceSlot : slice t 9 (9 + sl) = (t.drop 9).take sl := by
    rw [slice, List.drop_take]
    congr 1
    omega
  have hsliceId : slice t (10 + sl) (10 + sl + il) = (t.drop (10 + sl)).take il := by
    rw [slice, List.drop_take]
    congr 1
    omega
  cases w with
  | @true =>
    rw [pidComboCheck] at h
    simp only [Bool.cond_true] at h
    split at h
    case isFalse => exact absurd h (by simp)
    case isTrue hlenb =>
      have hlen : t.length = 8 + 1 + sl + 1 + il + 3 + 4 := by simpa using hlenb
      split at h
      case isFalse => exact absurd h (by simp)
      case isTrue hcond =>
        have hg : g = slice t (10 + sl) (10 + sl + il) := (Option.some.inj h).symm
        simp only [Bool.and_eq_true, beq_iff_eq] at hcond
        obtain ⟨⟨⟨⟨⟨⟨hd8, hu1⟩, hslot⟩, hu2⟩, hid⟩, hlocOk⟩, hext⟩ := hcond
        have e1 : t = t.take 8 ++ t.drop 8 := (List.take_append_drop 8 t).symm
        have e2 : t.drop 8 = '_' :: t.drop 9 := drop_eq_cons t 8 '_' hu1
        have e3 : t.drop 9 = (t.drop 9).take sl ++ t.drop (9 + sl) := by
          have h0 := (List.take_append_drop sl (t.drop 9)).symm
          rw [List.drop_drop] at h0
          rw [h0]
          congr 2 <;> omega
        have e4 : t.drop (9 + sl) = '_' :: t.drop (10 + sl) := by
          have h0 := drop_eq_cons t (9 + sl) '_' hu2
          rw [h0]
          congr 2 <;> omega
        have e5 : t.drop (10 + sl) = (t.drop (10 + sl)).take il ++ t.drop (10 + sl + il) := by
          have h0 := (List.take_append_drop il (t.drop (10 + sl))).symm
          rw [List.drop_drop] at h0
          rw [h0]
          congr 2 <;> omega
        obtain ⟨⟨ha0, ha1⟩, ha2⟩ := hlocOk
        obtain ⟨l1, hl1, hl1a⟩ : ∃ l1, (t.drop (10 + sl + il)).get? 1 = some l1
            ∧ isAsciiLetter l1 = true := by
          cases hx : (t.drop (10 + sl + il)).get? 1 with
          | none => rw [hx] at ha1; simp [Option.any] at ha1
          | some l1 =>
            rw [hx] at ha1
            exact ⟨l1, rfl, by simpa [Option.any] using ha1⟩
        obtain ⟨l2, hl2, hl2a⟩ : ∃ l2, (t.drop (10 + sl + il)).get? 2 = some l2
            ∧ isAsciiLetter l2 = true := by
          cases hx : (t.drop (10 + sl + il)).get? 2 with
          | none => rw [hx] at ha2; simp [Option.any] at ha2
          | some l2 =>
            rw [hx] at ha2
            exact ⟨l2, rfl, by simpa [Option.any] using ha2⟩
        have f0 : t.drop (10 + sl + il) = '_' :: (t.drop (10 + sl + il)).drop 1 :=
          drop_eq_cons _ 0 '_' (by simpa using ha0)
        have f1 : (t.drop (10 + sl + il)).drop 1 = l1 :: (t.drop (10 + sl + il)).drop 2 := by
          have h0 := drop_eq_cons (t.drop (10 + sl + il)) 1 l1 hl1
          simpa using h0
        have f2 : (t.drop (10 + sl + il)).drop 2 = l2 :: (t.drop (10 + sl + il)).drop 3 := by
          have h0 := drop_eq_cons (t.drop (10 + sl + il)) 2 l2 hl2
          simpa using h0
        refine ⟨t.take 8, (t.drop 9).take sl, (t.drop (10 + sl)).take il,
          ['_', l1, l2], (t.drop (10 + sl + il)).drop 3,
          ?_, ?_, hd8, ?_, ?_, ?_, ?_, ⟨l1, l2, rfl, hl1a, hl2a⟩, ?_, ?_, ?_⟩
        · conv_lhs => rw [e1, e2, e3, e4, e5, f0, f1, f2]
          simp
        · rw [List.length_take]
          omega
        · rw [List.length_take, List.length_drop]
          omega
        · rwa [hsliceSlot] at hslot
        · rw [List.length_take, List.length_drop]
          omega
        · rwa [hsliceId] at hid
        · rw [List.length_drop, List.length_drop]
          omega
        · simpa using hext
        · rw [hg, hsliceId]
  | @false =>
    rw [pidComboCheck] at h
    simp only [Bool.cond_false] at h
    split at h
    case isFalse => exact absurd h (by simp)
    case isTrue hlenb =>
      have hlen : t.length = 8 + 1 + sl + 1 + il + 0 + 4 := by simpa using hlenb
      split at h
      case isFalse => exact absurd h (by simp)
      case isTrue hcond =>
        have hg : g = slice t (10 + sl) (10 + sl + il) := (Option.some.inj h).symm
        simp only [Bool.and_eq_true, beq_iff_eq] at hcond
        obtain ⟨⟨⟨⟨⟨⟨hd8, hu1⟩, hslot⟩, hu2⟩, hid⟩, -⟩, hext⟩ := hcond
        have e1 : t = t.take 8 ++ t.drop 8 := (List.take_append_drop 8 t).symm
        have e2 : t.drop 8 = '_' :: t.drop 9 := drop_eq_cons t 8 '_' hu1
        have e3 : t.drop 9 = (t.drop 9).take sl ++ t.drop (9 + sl) := by
          have h0 := (List.take_append_drop sl (t.drop 9)).symm
          rw [List.drop_drop] at h0
          rw [h0]
          congr 2 <;> omega
        have e4 : t.drop (9 + sl) = '_' :: t.drop (10 + sl) := by
          have h0 := drop_eq_cons t (9 + sl) '_' hu2
          rw [h0]
          congr 2 <;> omega
        have e5 : t.drop (10 + sl) = (t.drop (10 + sl)).take il ++ t.drop (10 + sl + il) := by
          have h0 := (List.take_append_drop il (t.drop (10 + sl))).symm
          rw [List.drop_drop] at h0
          rw [h0]
          congr 2 <;> omega
        refine ⟨t.take 8, (t.drop 9).take sl, (t.drop (10 + sl)).take il,
          [], t.drop (10 + sl + il),
          ?_, ?_, hd8, ?_, ?_, ?_, ?_, rfl, ?_, ?_, ?_⟩
        · conv_lhs => rw [e1, e2, e3, e4, e5]
          simp
        · rw [List.length_take]
          omega
        · rw [List.length_take, List.length_drop]
          omega
        · rwa [hsliceSlot] at hslot
        · rw [List.length_take, List.length_drop]
          omega
        · rwa [hsliceId] at hid
        · rw [List.length_drop]
          omega
        · simpa using hext
        · rw [hg, hsliceId]

theorem take_at {a : Chars} (b : Chars) {n : Nat} (h : a.length = n) : (a ++ b).take n = a := by
  rw [← h]
  exact List.take_left a b

theorem drop_at {a : Chars} (b : Chars) {n : Nat} (h : a.length = n) : (a ++ b).drop n = b := by
  rw [← h]
  exact List.drop_left a b

/-- Completeness of one combo alternative: a declarative decomposition of the
    post-slash suffix makes the matching combo check succeed. -/
theorem pidComboCheck_complete (w : Bool) (d8 slot idp loc ext : Chars)
    (hd8 : d8.length = 8) (hd8d : allDigits d8 = true)
    (hsd : allDigits slot = true) (hidd : allDigits idp = true)
    (hloc : if w then
        ∃ l1 l2, loc = ['_', l1, l2] ∧ isAsciiLetter l1 = true ∧ isAsciiLetter l2 = true
      else loc = [])
    (hext4 : ext.length = 4) (hextp : pfxCI (".mp3".data) ext = true) :
    pidComboCheck (d8 ++ (['_'] ++ (slot ++ (['_'] ++ (idp ++ (loc ++ ext)))))) w
      slot.length idp.length = some idp := by
  have ht1 : (d8 ++ ['_']) ++ (slot ++ (['_'] ++ (idp ++ (loc ++ ext))))
      = d8 ++ (['_'] ++ (slot ++ (['_'] ++ (idp ++ (loc ++ ext))))) := by
    simp only [List.append_assoc]
  have ht2 : ((d8 ++ ['_']) ++ slot) ++ (['_'] ++ (idp ++ (loc ++ ext)))
      = d8 ++ (['_'] ++ (slot ++ (['_'] ++ (idp ++ (loc ++ ext))))) := by
    simp only [List.append_assoc]
  have ht3 : (((d8 ++ ['_']) ++ slot) ++ ['_']) ++ (idp ++ (loc ++ ext))
      = d8 ++ (['_'] ++ (slot ++ (['_'] ++ (idp ++ (loc ++ ext))))) := by
    simp only [List.append_assoc]
  have ht4 : ((((d8 ++ ['_']) ++ slot) ++ ['_']) ++ idp) ++ (loc ++ ext)
      = d8 ++ (['_'] ++ (slot ++ (['_'] ++ (idp ++ (loc ++ ext))))) := by
    simp only [List.append_assoc]
  have hT8 : (d8 ++ (['_'] ++ (slot ++ (['_'] ++ (idp ++ (loc ++ ext)))))).take 8
      = d8 := take_at _ hd8
  have hget8 : (d8 ++ (['_'] ++ (slot ++ (['_'] ++ (idp ++ (loc ++ ext)))))).get? 8
      = some '_' := get?_append_at _ hd8 rfl
  have hdrop9 : (d8 ++ (['_'] ++ (slot ++ (['_'] ++ (idp ++ (loc ++ ext)))))).drop 9
      = slot ++ (['_'] ++ (idp ++ (loc ++ ext))) := by
    rw [← ht1]
    exact drop_at _ (by simp [hd8])
  have hsliceSlot : slice (d8 ++ (['_'] ++ (slot ++ (['_'] ++ (idp ++ (loc ++ ext)))))) 9
      (9 + slot.length) = slot := by
    rw [slice, List.drop_take, Nat.add_sub_cancel_left, hdrop9]
    exact take_at _ rfl
  have hget9 : (d8 ++ (['_'] ++ (slot ++ (['_'] ++ (idp ++ (loc ++ ext)))))).get?
      (9 + slot.length) = some '_' := by
    rw [← ht2]
    refine get?_append_at _ ?_ rfl
    simp [hd8]
    omega
  have hdrop10 : (d8 ++ (['_'] ++ (slot ++ (['_'] ++ (idp ++ (loc ++ ext)))))).drop
      (10 + slot.length) = idp ++ (loc ++ ext) := by
    rw [← ht3]
    refine drop_at _ ?_
    simp [hd8]
    omega
  have hsliceId : slice (d8 ++ (['_'] ++ (slot ++ (['_'] ++ (idp ++ (loc ++ ext))))))
      (10 + slot.length) (10 + slot.length + idp.length) = idp := by
    rw [slice, List.drop_take, Nat.add_sub_cancel_left, hdrop10]
    exact take_at _ rfl
  have hafter : (d8 ++ (['_'] ++ (slot ++ (['_'] ++ (idp ++ (loc ++ ext)))))).drop
      (10 + slot.length + idp.length) = loc ++ ext := by
    rw [← ht4]
    refine drop_at _ ?_
    simp [hd8]
    omega
  cases w with
  | true =>
    rw [if_pos rfl] at hloc
    obtain ⟨l1, l2, rfl, hl1, hl2⟩ := hloc
    have hlenEq : (d8 ++ (['_'] ++ (slot ++ (['_'] ++ (idp ++ (['_', l1, l2] ++ ext)))))).length
        = 8 + 1 + slot.length + 1 + idp.length + (cond true 3 0) + 4 := by
      simp only [List.length_append, hd8, hext4, Bool.cond_true, List.length_cons,
        List.length_nil]
      omega
    have h1 : allDigits ((d8 ++ (['_'] ++ (slot ++ (['_'] ++ (idp
        ++ (['_', l1, l2] ++ ext)))))).take 8) = true := by
      rw [hT8]; exact hd8d
    have h3 : allDigits (slice (d8 ++ (['_'] ++ (slot ++ (['_'] ++ (idp
        ++ (['_', l1, l2] ++ ext)))))) 9 (9 + slot.length)) = true := by
      rw [hsliceSlot]; exact hsd
    have h5 : allDigits (slice (d8 ++ (['_'] ++ (slot ++ (['_'] ++ (idp
        ++ (['_', l1, l2] ++ ext)))))) (10 + slot.length) (10 + slot.length + idp.length))
        = true := by
      rw [hsliceId]; exact hidd
    have f1 : ((d8 ++ (['_'] ++ (slot ++ (['_'] ++ (idp ++ (['_', l1, l2] ++ ext)))))).drop
        (10 + slot.length + idp.length)).get? 0 = some '_' := by
      rw [hafter]; rfl
    have f2 : (((d8 ++ (['_'] ++ (slot ++ (['_'] ++ (idp ++ (['_', l1, l2] ++ ext)))))).drop
        (10 + slot.length + idp.length)).get? 1).any isAsciiLetter = true := by
      rw [hafter]
      show (some l1).any isAsciiLetter = true
      simpa using hl1
    have f3 : (((d8 ++ (['_'] ++ (slot ++ (['_'] ++ (idp ++ (['_', l1, l2] ++ ext)))))).drop
        (10 + slot.length + idp.length)).get? 2).any isAsciiLetter = true := by
      rw [hafter]
      show (some l2).any isAsciiLetter = true
      simpa using hl2
    have hG : pfxCI (".mp3".data) (((d8 ++ (['_'] ++ (slot ++ (['_'] ++ (idp
        ++ (['_', l1, l2] ++ ext)))))).drop (10 + slot.length + idp.length)).drop
        (cond true 3 0)) = true := by
      rw [hafter]
      show pfxCI (".mp3".data) ext = true
      exact hextp
    rw [pidComboCheck, if_pos (by rw [hlenEq]; simp), if_pos]
    · rw [hsliceId]
    · simp only [Bool.cond_true, Bool.and_eq_true, beq_iff_eq]
      exact ⟨⟨⟨⟨⟨⟨h1, hget8⟩, h3⟩, hget9⟩, h5⟩, ⟨⟨f1, f2⟩, f3⟩⟩, by simpa using hG⟩
  | false =>
    rw [if_neg (by simp)] at hloc
    subst hloc
    have hlenEq : (d8 ++ (['_'] ++ (slot ++ (['_'] ++ (idp ++ ([] ++ ext)))))).length
        = 8 + 1 + slot.length + 1 + idp.length + (cond false 3 0) + 4 := by
      simp only [List.length_append, hd8, hext4, Bool.cond_false, List.length_cons,
        List.length_nil]
      omega
    have h1 : allDigits ((d8 ++ (['_'] ++ (slot ++ (['_'] ++ (idp
        ++ ([] ++ ext)))))).take 8) = true := by
      rw [hT8]; exact hd8d
    have h3 : allDigits (slice (d8 ++ (['_'] ++ (slot ++ (['_'] ++ (idp
        ++ ([] ++ ext)))))) 9 (9 + slot.length)) = true := by
      rw [hsliceSlot]; exact hsd
    have h5 : allDigits (slice (d8 ++ (['_'] ++ (slot ++ (['_'] ++ (idp
        ++ ([] ++ ext)))))) (10 + slot.length) (10 + slot.length + idp.length)) = true := by
      rw [hsliceId]; exact hidd
    have hG : pfxCI (".mp3".data) (((d8 ++ (['_'] ++ (slot ++ (['_'] ++ (idp
        ++ ([] ++ ext)))))).drop (10 + slot.length + idp.length)).drop (cond false 3 0))
        = true := by
      rw [hafter]
      show pfxCI (".mp3".data) ([] ++ ext) = true
      simpa using hextp
    rw [pidComboCheck, if_pos (by rw [hlenEq]; simp), if_pos]
    · rw [hsliceId]
    · simp only [Bool.cond_false, Bool.and_eq_true, beq_iff_eq]
      exact ⟨⟨⟨⟨⟨⟨h1, hget8⟩, h3⟩, hget9⟩, h5⟩, trivial⟩, by simpa using hG⟩

theorem pidTryAt_pattern {core : Chars} {w : Bool} {i : Nat} {g : Chars}
    (h : pidTryAt core w i = some g) : pidPatternAt w core := by
  rw [pidTryAt] at h
  split at h
  case isFalse => exact absurd h (by simp)
  case isTrue hslash =>
    obtain ⟨x, hmem, hcheck⟩ := findSome?_some_mem h
    obtain ⟨d8, slot, idp, loc, ext, hteq, hlen8, hd8d, hsl, hsd, hil, hidd, hlocP,
      hext4, hextp, -⟩ := pidComboCheck_sound hcheck
    have hxb : (x.1 = 3 ∨ x.1 = 4) ∧ 3 ≤ x.2 ∧ x.2 ≤ 6 := by
      fin_cases hmem <;> simp
    have hslash2 : core.get? i = some '/' := by simpa using hslash
    have hcore : core = core.take i ++ ('/' :: core.drop (i+1)) := by
      conv_lhs => rw [← List.take_append_drop i core]
      rw [drop_eq_cons core i '/' hslash2]
    refine ⟨core.take i, d8, slot, idp, loc, ext, ?_, hlen8, hd8d, ?_, hsd, ?_, ?_, hidd,
      hlocP, hext4, hextp⟩
    · conv_lhs => rw [hcore, hteq]
      simp [List.append_assoc]
    · rw [hsl]
      exact hxb.1
    · rw [hil]
      exact hxb.2.1
    · rw [hil]
      exact hxb.2.2

theorem pidPatternAt_search {core : Chars} {w : Bool} (hp : pidPatternAt w core) :
    pidSearch core w ≠ none := by
  obtain ⟨pre, d8, slot, idp, loc, ext, hceq, hlen8, hd8d, hsl, hsd, hil1, hil2, hidd,
    hlocP, hext4, hextp⟩ := hp
  have hR : core
      = pre ++ (['/'] ++ (d8 ++ (['_'] ++ (slot ++ (['_'] ++ (idp ++ (loc ++ ext))))))) := by
    rw [hceq]
    simp [List.append_assoc]
  have hR2 : core
      = (pre ++ ['/']) ++ (d8 ++ (['_'] ++ (slot ++ (['_'] ++ (idp ++ (loc ++ ext)))))) := by
    rw [hceq]
    simp [List.append_assoc]
  have hgetSlash : core.get? pre.length = some '/' := by
    rw [hR]
    exact get?_append_at _ rfl rfl
  have hdropPre : core.drop (pre.length + 1)
      = d8 ++ (['_'] ++ (slot ++ (['_'] ++ (idp ++ (loc ++ ext))))) := by
    rw [hR2]
    exact drop_at _ (by simp)
  have hcheck2 : pidComboCheck (core.drop (pre.length + 1)) w slot.length idp.length
      = some idp := by
    rw [hdropPre]
    exact pidComboCheck_complete w d8 slot idp loc ext hlen8 hd8d hsd hidd hlocP hext4 hextp
  have hid4 : idp.length = 3 ∨ idp.length = 4 ∨ idp.length = 5 ∨ idp.length = 6 := by omega
  have hmem : (slot.length, idp.length) ∈ pidCombos := by
    rcases hsl with hs | hs <;> rcases hid4 with hi | hi | hi | hi <;> rw [hs, hi] <;>
      simp [pidCombos]
  have htry : pidTryAt core w pre.length ≠ none := by
    rw [pidTryAt, if_pos (by rw [hgetSlash]; decide)]
    exact findSome?_ne_none hmem hcheck2
  have hlt : pre.length < core.length := by
    rw [hR]
    simp [List.length_append]
  intro hnone
  rw [pidSearch] at hnone
  exact htry (pidScanAux_none _ 0 hnone pre.length (Nat.zero_le _) hlt (by omega))

/-- The search of one $-anchored pid pattern succeeds exactly when the pattern
    matches declaratively. -/
theorem pidSearch_iff (core : Chars) (w : Bool) :
    pidSearch core w ≠ none ↔ pidPatternAt w core := by
  constructor
  · intro h
    cases hs : pidSearch core w with
    | none => exact absurd hs h
    | some g =>
      rw [pidSearch] at hs
      obtain ⟨j, hj⟩ := pidScanAux_some _ _ hs
      exact pidTryAt_pattern hj
  · exact pidPatternAt_search

/-- C7: pid_from_audio_url is total; on success the returned identifier has no
    leading zero (an all-zero group normalizes to "0"); it succeeds exactly
    when one of the two trailing-filename patterns matches the newline-trimmed
    subject; and the locale-suffixed pattern is tried first, the second only
    when the first fails, each returning its identifier group zero-stripped. -/
theorem claim_C7 (u : String) :
    (pid_from_audio_url u = none ∨ ∃ s, pid_from_audio_url u = some s
        ∧ (s = "0" ∨ s.data.head? ≠ some '0'))
    ∧ (pid_from_audio_url u ≠ none
        ↔ (pidPatternAt true (pidCore u) ∨ pidPatternAt false (pidCore u)))
    ∧ (∀ g, pidSearch (pidCore u) true = some g →
        pid_from_audio_url u = some (String.mk (lstripZeros g)))
    ∧ (pidSearch (pidCore u) true = none → ∀ g, pidSearch (pidCore u) false = some g →
        pid_from_audio_url u = some (String.mk (lstripZeros g))) := by
  refine ⟨?_, ?_, ?_, ?_⟩
  · rw [pid_from_audio_url]
    cases h1 : pidSearch (pidCore u) true with
    | some g =>
      right
      refine ⟨String.mk (lstripZeros g), rfl, ?_⟩
      rcases lstripZeros_spec g with h | ⟨c, r, he, hc⟩
      · left
        rw [h]
      · right
        rw [he]
        simp [hc]
    | none =>
      cases h2 : pidSearch (pidCore u) false with
      | some g =>
        right
        refine ⟨String.mk (lstripZeros g), rfl, ?_⟩
        rcases lstripZeros_spec g with h | ⟨c, r, he, hc⟩
        · left
          rw [h]
        · right
          rw [he]
          simp [hc]
      | none => left; rfl
  · cases h1 : pidSearch (pidCore u) true with
    | some g =>
      rw [pid_from_audio_url, h1]
      constructor
      · intro _
        left
        refine (pidSearch_iff _ _).mp ?_
        rw [h1]
        simp
      · intro _
        simp
    | none =>
      cases h2 : pidSearch (pidCore u) false with
      | some g =>
        rw [pid_from_audio_url, h1, h2]
        constructor
        · intro _
          right
          refine (pidSearch_iff _ _).mp ?_
          rw [h2]
          simp
        · intro _
          simp
      | none =>
        rw [pid_from_audio_url, h1, h2]
        constructor
        · intro h
          exact absurd rfl h
        · rintro (hp | hp)
          · exact absurd h1 ((pidSearch_iff (pidCore u) true).mpr hp)
          · exact absurd h2 ((pidSearch_iff (pidCore u) false).mpr hp)
  · intro g hg
    rw [pid_from_audio_url, hg]
  · intro h1 g h2
    rw [pid_from_audio_url, h1, h2]

/-- Witness for claim_C7 on a concrete address from the source docstring. -/
theorem claim_C7_witness :
    pid_from_audio_url "https://a/krrti/files/202508/20250901_1830_0002_kr.mp3"
      = some "2" := by
  have h := (claim_C7 "https://a/krrti/files/202508/20250901_1830_0002_kr.mp3").2.2.1
    "0002".data (by decide)
  rw [h]
  decide

/-! ## Claim C5: link classification -/

theorem anchorRest_url {html lit : Chars} {h : Nat} {r : Nat × Chars × Chars}
    (hr : anchorRest html lit h = some r) : litPlus lit r.2.1 = true := by
  unfold anchorRest at hr
  split at hr
  · exact absurd hr (by simp)
  · split at hr
    case isFalse => exact absurd hr (by simp)
    case isTrue =>
      split at hr
      · exact absurd hr (by simp)
      · split at hr
        case isFalse => exact absurd hr (by simp)
        case isTrue =>
          split at hr
          case isFalse => exact absurd hr (by simp)
          case isTrue hlp =>
            split at hr
            · exact absurd hr (by simp)
            · split at hr
              · exact absurd hr (by simp)
              · rw [← Option.some.inj hr]
                exact hlp

theorem anchorTryHs_url {html lit : Chars} {r : Nat × Chars × Chars} :
    ∀ {hs : List Nat}, anchorTryHs html lit hs = some r → litPlus lit r.2.1 = true := by
  intro hs
  induction hs with
  | nil => intro h; simp [anchorTryHs] at h
  | cons h0 hs ih =>
    intro h
    rw [anchorTryHs] at h
    split at h
    · split at h
      case h_1 r0 heq =>
        rw [← Option.some.inj h]
        exact anchorRest_url heq
      case h_2 => exact ih h
    · exact ih h

theorem anchorTryAt_url {html lit : Chars} {i : Nat} {r : Nat × Chars × Chars}
    (h : anchorTryAt html lit i = some r) : litPlus lit r.2.1 = true := by
  rw [anchorTryAt] at h
  split at h
  · exact anchorTryHs_url h
  · exact absurd h (by simp)

theorem findAnchorsAux_url {html lit : Chars} :
    ∀ (fuel i : Nat) {a : Anchor}, a ∈ findAnchorsAux html lit i fuel →
      litPlus lit a.aurl = true := by
  intro fuel
  induction fuel with
  | zero => intro i a h; simp [findAnchorsAux] at h
  | succ fuel ih =>
    intro i a h
    rw [findAnchorsAux] at h
    split at h
    · split at h
      case h_1 x e t inn heq =>
        rcases List.mem_cons.mp h with rfl | hmem
        · exact anchorTryAt_url heq
        · exact ih _ hmem
      case h_2 => exact ih _ h
    · simp at h

theorem findAnchors_url {html lit : Chars} {a : Anchor} (h : a ∈ findAnchors html lit) :
    litPlus lit a.aurl = true :=
  findAnchorsAux_url _ _ h

theorem litPlus_hasCI {lit : Chars} : ∀ {t : Chars}, litPlus lit t = true →
    hasCI lit t = true := by
  intro t
  induction t with
  | nil => intro h; simp [litPlus] at h
  | cons c cs ih =>
    intro h
    rw [litPlus] at h
    rw [hasCI]
    rcases Bool.or_eq_true_iff.mp h with h1 | h2
    · rw [(Bool.and_eq_true _ _).mp h1 |>.1]
      simp
    · rw [ih h2]
      simp

theorem hasCI_append_left {lit s : Chars} (x : Chars) (h : hasCI lit s = true) :
    hasCI lit (x ++ s) = true := by
  induction x with
  | nil => simpa using h
  | cons c cs ih =>
    rw [List.cons_append, hasCI, ih]
    simp

theorem hasCI_cons_dropWhile {lr : Chars} :
    ∀ {href : Chars}, hasCI ('/' :: 'p' :: lr) href = true →
      hasCI ('/' :: 'p' :: lr) ('/' :: href.dropWhile (fun c => c == '.' || c == '/'))
        = true := by
  intro href
  induction href with
  | nil => intro h; rw [hasCI, pfxCI] at h; simp at h
  | cons c cs ih =>
    intro h
    rw [hasCI] at h
    rcases Bool.or_eq_true_iff.mp h with hp | hrest
    · -- a case-insensitive occurrence starts at c
      rw [pfxCI] at hp
      obtain ⟨hc, hp2⟩ := (Bool.and_eq_true _ _).mp hp
      by_cases hdot : (c == '.' || c == '/') = true
      · -- c is stripped, so c must be the slash of the occurrence itself
        have hcSlash : c = '/' := by
          rcases Bool.or_eq_true_iff.mp hdot with h1 | h1
          · exfalso
            rw [beq_iff_eq] at h1
            subst h1
            simp [lowC] at hc
          · exact beq_iff_eq.mp h1
        subst hcSlash
        cases cs with
        | nil => rw [pfxCI] at hp2; simp at hp2
        | cons c2 cs2 =>
          rw [pfxCI] at hp2
          obtain ⟨hc2, hp3⟩ := (Bool.and_eq_true _ _).mp hp2
          have hc2ns : (c2 == '.' || c2 == '/') = false := by
            by_cases h1 : c2 = '.'
            · subst h1; simp [lowC] at hc2
            · by_cases h2 : c2 = '/'
              · subst h2; simp [lowC] at hc2
              · simp [h1, h2]
          have hstep : List.dropWhile (fun c => c == '.' || c == '/') ('/' :: c2 :: cs2)
              = c2 :: cs2 := by
            simp [List.dropWhile, hc2ns]
          rw [hstep, hasCI, pfxCI, pfxCI]
          rw [hc2, hp3]
          simp
      · have hstep : List.dropWhile (fun c => c == '.' || c == '/') (c :: cs) = c :: cs := by
          rw [List.dropWhile]
          simp only [Bool.not_eq_true] at hdot
          rw [hdot]
        rw [hstep, hasCI]
        have h2 : hasCI ('/' :: 'p' :: lr) (c :: cs) = true := by
          rw [hasCI, pfxCI, hc, hp2]
          simp
        rw [h2]
        simp
    · -- the occurrence lies inside cs
      by_cases hdot : (c == '.' || c == '/') = true
      · have hstep : List.dropWhile (fun c => c == '.' || c == '/') (c :: cs)
            = List.dropWhile (fun c => c == '.' || c == '/') cs := by
          rw [List.dropWhile, hdot]
        rw [hstep]
        exact ih hrest
      · have hstep : List.dropWhile (fun c => c == '.' || c == '/') (c :: cs) = c :: cs := by
          rw [List.dropWhile]
          simp only [Bool.not_eq_true] at hdot
          rw [hdot]
        rw [hstep, hasCI]
        have h2 : hasCI ('/' :: 'p' :: lr) (c :: cs) = true := by
          rw [hasCI, hrest]
          simp
        rw [h2]
        simp

/-- The two classification literals start with "/p", and absolutize preserves a
    case-insensitive occurrence of such a literal. -/
theorem absolutize_hasCI (base href lr : Chars)
    (h : hasCI ('/' :: 'p' :: lr) href = true) :
    hasCI ('/' :: 'p' :: lr) (absolutizeC base href) = true := by
  rw [absolutizeC]
  split
  · exact hasCI_append_left _ h
  · split
    · exact h
    · split
      · exact hasCI_append_left _ h
      · rw [List.append_assoc]
        exact hasCI_append_left _ (hasCI_cons_dropWhile h)

theorem pushLinks_mem {base : Chars} {kind : String} :
    ∀ (L : List Anchor) (acc : List LinkItem × List String) {it : LinkItem},
      it ∈ (pushLinks base kind L acc).1 →
      it ∈ acc.1 ∨ ∃ a ∈ L, it = mkLinkItem base kind a := by
  intro L
  induction L with
  | nil => intro acc it h; exact Or.inl h
  | cons a rest ih =>
    intro acc it h
    rw [pushLinks] at h
    obtain ⟨out, seen⟩ := acc
    split at h
    · rcases ih _ h with hin | ⟨b, hb, he⟩
      · exact Or.inl hin
      · exact Or.inr ⟨b, List.mem_cons_of_mem a hb, he⟩
    · rcases ih _ h with hin | ⟨b, hb, he⟩
      · rcases List.mem_append.mp hin with hin1 | hin2
        · exact Or.inl hin1
        · exact Or.inr ⟨a, List.mem_cons_self a rest, by simpa using hin2⟩
      · exact Or.inr ⟨b, List.mem_cons_of_mem a hb, he⟩

/-- C5 (amended to the source literals): every candidate produced by
    find_links_from_schedule is classified program exactly from an anchor whose
    address carries "/program?pid=" and episode exactly from one carrying
    "/programnews?pid=" (case-insensitively, preserved by absolutization), and
    the claim scenario anchor /programnews?pid=42 yields exactly one episode
    candidate. -/
theorem claim_C5 :
    (∀ (html base : String) (it : LinkItem), it ∈ find_links_from_schedule html base →
      (it.kind = "program" ∧ hasCI litProgram it.url.data = true)
      ∨ (it.kind = "episode" ∧ hasCI litEpisode it.url.data = true))
    ∧ find_links_from_schedule "<a href=\"/programnews?pid=42\">Morning News</a>" "https://s"
      = [{ title := "Morning News", url := "https://s/programnews?pid=42", kind := "episode" }]
    ∧ find_links_from_schedule "<a href=\"/program?pid=7\">Culture</a>" "https://s"
      = [{ title := "Culture", url := "https://s/program?pid=7", kind := "program" }] := by
  refine ⟨?_, by decide, by decide⟩
  intro html base it hmem
  rw [find_links_from_schedule] at hmem
  rcases pushLinks_mem _ _ hmem with hin | ⟨a, ha, he⟩
  · rcases pushLinks_mem _ _ hin with hin2 | ⟨a, ha, he⟩
    · simp at hin2
    · left
      subst he
      refine ⟨rfl, ?_⟩
      show hasCI litProgram (absolutizeC base.data a.aurl) = true
      have h1 : hasCI litProgram a.aurl = true := litPlus_hasCI (findAnchors_url ha)
      have h2 : litProgram = '/' :: 'p' :: "rogram?pid=".data := rfl
      rw [h2] at h1 ⊢
      exact absolutize_hasCI _ _ _ h1
  · right
    subst he
    refine ⟨rfl, ?_⟩
    show hasCI litEpisode (absolutizeC base.data a.aurl) = true
    have h1 : hasCI litEpisode a.aurl = true := litPlus_hasCI (findAnchors_url ha)
    have h2 : litEpisode = '/' :: 'p' :: "rogramnews?pid=".data := rfl
    rw [h2] at h1 ⊢
    exact absolutize_hasCI _ _ _ h1

/-- C5 counterexample: the anchor address form /programnews?id=42 named by the
    claim yields no candidate at all: the extractor requires the pid= form. -/
theorem claim_C5_cex :
    find_links_from_schedule "<a href=\"/programnews?id=42\">Morning News</a>" "https://s"
      = [] := by decide

/-- Witness for claim_C5 on the scenario anchor. -/
theorem claim_C5_witness :
    ((LinkItem.mk "Morning News" "https://s/programnews?pid=42" "episode").kind = "program"
      ∧ hasCI litProgram ("https://s/programnews?pid=42" : String).data = true)
    ∨ ((LinkItem.mk "Morning News" "https://s/programnews?pid=42" "episode").kind = "episode"
      ∧ hasCI litEpisode ("https://s/programnews?pid=42" : String).data = true) :=
  claim_C5.1 "<a href=\"/programnews?pid=42\">Morning News</a>" "https://s" _ (by decide)

/-! ## Claim C9: audio item deduplication -/

theorem audioPass1_inv (html base : Chars) :
    ∀ (hits : List AttrHit) (out : List AudioItem) (seen : List String),
      (out.map (fun a => a.audio_url)).Nodup →
      (∀ u ∈ out.map (fun a => a.audio_url), u ∈ seen) →
      ((audioPass1 html base hits (out, seen)).1.map (fun a => a.audio_url)).Nodup
        ∧ ∀ u ∈ (audioPass1 html base hits (out, seen)).1.map (fun a => a.audio_url),
            u ∈ (audioPass1 html base hits (out, seen)).2 := by
  intro hits
  induction hits with
  | nil => intro out seen h1 h2; exact ⟨h1, h2⟩
  | cons h rest ih =>
    intro out seen h1 h2
    rw [audioPass1]
    split
    · exact ih out seen h1 h2
    case isFalse hns =>
      refine ih _ _ ?_ ?_
      · rw [List.map_append, List.nodup_append]
        refine ⟨h1, by simp, ?_⟩
        intro u hu
        simp only [List.map_cons, List.map_nil, List.mem_singleton]
        intro he
        subst he
        exact hns (List.elem_eq_true_of_mem (h2 _ hu))
      · intro u hu
        rw [List.map_append] at hu
        rcases List.mem_append.mp hu with hu1 | hu2
        · exact List.mem_append_left _ (h2 u hu1)
        · simp only [List.map_cons, List.map_nil, List.mem_singleton] at hu2
          subst hu2
          exact List.mem_append_right _ (by simp)

theorem audioPass2_inv (html : Chars) :
    ∀ (hits : List Chars) (out : List AudioItem) (seen : List String),
      (out.map (fun a => a.audio_url)).Nodup →
      (∀ u ∈ out.map (fun a => a.audio_url), u ∈ seen) →
      ((audioPass2 html hits (out, seen)).1.map (fun a => a.audio_url)).Nodup
        ∧ ∀ u ∈ (audioPass2 html hits (out, seen)).1.map (fun a => a.audio_url),
            u ∈ (audioPass2 html hits (out, seen)).2 := by
  intro hits
  induction hits with
  | nil => intro out seen h1 h2; exact ⟨h1, h2⟩
  | cons h rest ih =>
    intro out seen h1 h2
    rw [audioPass2]
    split
    · exact ih out seen h1 h2
    case isFalse hns =>
      refine ih _ _ ?_ ?_
      · rw [List.map_append, List.nodup_append]
        refine ⟨h1, by simp, ?_⟩
        intro u hu
        simp only [List.map_cons, List.map_nil, List.mem_singleton]
        intro he
        subst he
        exact hns (List.elem_eq_true_of_mem (h2 _ hu))
      · intro u hu
        rw [List.map_append] at hu
        rcases List.mem_append.mp hu with hu1 | hu2
        · exact List.mem_append_left _ (h2 u hu1)
        · simp only [List.map_cons, List.map_nil, List.mem_singleton] at hu2
          subst hu2
          exact List.mem_append_right _ (by simp)

/-- C9: the audio extractor yields at most one asset per address across both
    passes, and on the claim scenario (the same address as an attribute and as
    plain text) exactly one asset survives, titled from the first occurrence. -/
theorem claim_C9 :
    (∀ html base : String,
      ((find_audio_items_from_schedule html base).map (fun a => a.audio_url)).Nodup)
    ∧ find_audio_items_from_schedule
        "<p src=\"https://a/b.mp3\">Riff</p> https://a/b.mp3" "https://s"
      = [{ title := "Riff https: a b.mp3", audio_url := "https://a/b.mp3" }] := by
  refine ⟨?_, by decide⟩
  intro html base
  rw [find_audio_items_from_schedule]
  have h1 := audioPass1_inv html.data base.data (attrHits html.data ["mp3".data])
    [] [] (by simp) (by simp)
  exact (audioPass2_inv html.data (plainHits html.data) _ _ h1.1 h1.2).1

/-! ## Row-level lemmas for the run loop -/

theorem ok_iff_aux (a b : Bool) :
    ((if a && b then "OK" else "ISSUE") : String) = "OK" ↔ (a = true ∧ b = true) := by
  split
  case isTrue h =>
    simp only [Bool.and_eq_true] at h
    simp [h]
  case isFalse h =>
    simp only [Bool.and_eq_true] at h
    constructor
    · intro he
      exact absurd he (by decide)
    · intro hab
      exact absurd hab h

theorem statusOf_eq_ok_iff (res : CheckResult) :
    statusOf res = "OK" ↔ (res.audio_ok = true ∧ res.bulletin_ok = true) :=
  ok_iff_aux res.audio_ok res.bulletin_ok

theorem statusOf_ok_or_issue (res : CheckResult) :
    statusOf res = "OK" ∨ statusOf res = "ISSUE" := by
  rw [statusOf]
  split
  · exact Or.inl rfl
  · exact Or.inr rfl

theorem statusOf_ne_nodata (res : CheckResult) : statusOf res ≠ "NO-DATA" := by
  rcases statusOf_ok_or_issue res with h | h <;> rw [h] <;> decide

/-- Inversion of the per-candidate A/B body: the appended record is one of the
    four record shapes. -/
theorem abCandidateRow_cases {E : Env} {ctx : LangCtx} {it : LinkItem} {r : Row}
    (h : abCandidateRow E ctx it = some r) :
    (∃ t u res, r = rowDirect E ctx t u res)
    ∨ (∃ t u, r = rowSNEerr E ctx t u)
    ∨ (∃ t u et, r = rowSNEnoEp E ctx t u et)
    ∨ (∃ t pu et eu res, r = rowResolved E ctx t pu et eu res) := by
  rw [abCandidateRow] at h
  split at h
  · exact Or.inl ⟨_, _, _, (Option.some.inj h).symm⟩
  · split at h
    · split at h
      · exact Or.inr (Or.inl ⟨_, _, (Option.some.inj h).symm⟩)
      · exact Or.inr (Or.inr (Or.inl ⟨_, _, _, (Option.some.inj h).symm⟩))
      · split at h
        · exact Or.inr (Or.inr (Or.inl ⟨_, _, _, (Option.some.inj h).symm⟩))
        · exact Or.inr (Or.inr (Or.inr ⟨_, _, _, _, _, (Option.some.inj h).symm⟩))
    · exact absurd h (by simp)

/-- Inversion of the per-asset strategy C body. -/
theorem cAssetRow_cases (E : Env) (ctx : LangCtx) (a : AudioItem) :
    (∃ t pu et eu res, cAssetRow E ctx a = rowCEpisode E ctx t pu et eu res)
    ∨ (∃ t au sz, cAssetRow E ctx a = rowCRaw E ctx t au sz) := by
  rw [cAssetRow]
  split
  · split
    · exact Or.inr ⟨_, _, _, rfl⟩
    · exact Or.inr ⟨_, _, _, rfl⟩
    · split
      · exact Or.inr ⟨_, _, _, rfl⟩
      · exact Or.inl ⟨_, _, _, _, _, rfl⟩
  · exact Or.inr ⟨_, _, _, rfl⟩

/-- The record-status / flag relation, for each record shape of the run loop. -/
theorem row_shape_flags (E : Env) (ctx : LangCtx) (r : Row)
    (h : (∃ t u res, r = rowDirect E ctx t u res)
      ∨ (∃ t u, r = rowSNEerr E ctx t u)
      ∨ (∃ t u et, r = rowSNEnoEp E ctx t u et)
      ∨ (∃ t pu et eu res, r = rowResolved E ctx t pu et eu res)
      ∨ (∃ t pu et eu res, r = rowCEpisode E ctx t pu et eu res)
      ∨ (∃ t au sz, r = rowCRaw E ctx t au sz)) :
    (r.status = "OK" ↔ r.audio_ok = Cell.bool true ∧ r.bulletin_ok = Cell.bool true)
    ∧ r.status ≠ "NO-DATA"
    ∧ (∃ b, r.audio_ok = Cell.bool b) ∧ (∃ b, r.bulletin_ok = Cell.bool b)
    ∧ (∃ n, r.bulletin_len = Cell.nat n) := by
  rcases h with ⟨t, u, res, rfl⟩ | ⟨t, u, rfl⟩ | ⟨t, u, et, rfl⟩ | ⟨t, pu, et, eu, res, rfl⟩
    | ⟨t, pu, et, eu, res, rfl⟩ | ⟨t, au, sz, rfl⟩
  · refine ⟨?_, statusOf_ne_nodata res, ⟨_, rfl⟩, ⟨_, rfl⟩, ⟨_, rfl⟩⟩
    show statusOf res = "OK"
      ↔ Cell.bool res.audio_ok = Cell.bool true ∧ Cell.bool res.bulletin_ok = Cell.bool true
    simp only [Cell.bool.injEq]
    exact statusOf_eq_ok_iff res
  · refine ⟨?_, ?_, ⟨_, rfl⟩, ⟨_, rfl⟩, ⟨_, rfl⟩⟩
    · show ("SCHEDULED-NO-EPISODE" : String) = "OK"
        ↔ Cell.bool false = Cell.bool true ∧ Cell.bool false = Cell.bool true
      decide
    · show ("SCHEDULED-NO-EPISODE" : String) ≠ "NO-DATA"
      decide
  · refine ⟨?_, ?_, ⟨_, rfl⟩, ⟨_, rfl⟩, ⟨_, rfl⟩⟩
    · show ("SCHEDULED-NO-EPISODE" : String) = "OK"
        ↔ Cell.bool false = Cell.bool true ∧ Cell.bool false = Cell.bool true
      decide
    · show ("SCHEDULED-NO-EPISODE" : String) ≠ "NO-DATA"
      decide
  · refine ⟨?_, statusOf_ne_nodata res, ⟨_, rfl⟩, ⟨_, rfl⟩, ⟨_, rfl⟩⟩
    show statusOf res = "OK"
      ↔ Cell.bool res.audio_ok = Cell.bool true ∧ Cell.bool res.bulletin_ok = Cell.bool true
    simp only [Cell.bool.injEq]
    exact statusOf_eq_ok_iff res
  · refine ⟨?_, statusOf_ne_nodata res, ⟨_, rfl⟩, ⟨_, rfl⟩, ⟨_, rfl⟩⟩
    show statusOf res = "OK"
      ↔ Cell.bool res.audio_ok = Cell.bool true ∧ Cell.bool res.bulletin_ok = Cell.bool true
    simp only [Cell.bool.injEq]
    exact statusOf_eq_ok_iff res
  · refine ⟨?_, ?_, ⟨_, rfl⟩, ⟨_, rfl⟩, ⟨_, rfl⟩⟩
    · show (if decide (ctx.audioMin * 1024 ≤ sz)
            && (bulletinOptionalSet E.cfg).contains (String.mk (norm_title t.data))
          then "OK" else "ISSUE") = "OK"
        ↔ Cell.bool (decide (ctx.audioMin * 1024 ≤ sz)) = Cell.bool true
          ∧ Cell.bool ((bulletinOptionalSet E.cfg).contains (String.mk (norm_title t.data)))
            = Cell.bool true
      simp only [Cell.bool.injEq]
      exact ok_iff_aux _ _
    · show (if decide (ctx.audioMin * 1024 ≤ sz)
            && (bulletinOptionalSet E.cfg).contains (String.mk (norm_title t.data))
          then "OK" else "ISSUE") ≠ "NO-DATA"
      split
      · decide
      · decide

/-- Every record in a language's output is an A/B record, a strategy C record,
    or the NO-DATA record. -/
theorem processLang_mem_cases {E : Env} {lang : Language} {r : Row}
    (h : r ∈ processLang E lang) :
    (∃ it, abCandidateRow E (mkLangCtx E lang) it = some r)
    ∨ (∃ a, r = cAssetRow E (mkLangCtx E lang) a)
    ∨ r = rowNoData E (mkLangCtx E lang) := by
  rw [processLang] at h
  rcases List.mem_append.mp h with h1 | h2
  · rcases List.mem_append.mp h1 with ha | hc
    · rw [langAB, abRows] at ha
      obtain ⟨it, -, hit⟩ := List.mem_filterMap.mp ha
      exact Or.inl ⟨it, hit⟩
    · rw [langC, cRowsOf] at hc
      split at hc
      · obtain ⟨a, -, ha⟩ := List.mem_map.mp hc
        exact Or.inr (Or.inl ⟨a, ha.symm⟩)
      · simp at hc
  · split at h2
    · rcases List.mem_singleton.mp h2 with rfl
      exact Or.inr (Or.inr rfl)
    · simp at h2

/-- The status/flag facts for every record of a language's output. -/
theorem processLang_row_facts {E : Env} {lang : Language} {r : Row}
    (h : r ∈ processLang E lang) :
    (r.status = "OK" ↔ r.audio_ok = Cell.bool true ∧ r.bulletin_ok = Cell.bool true)
    ∨ r = rowNoData E (mkLangCtx E lang) := by
  rcases processLang_mem_cases h with ⟨it, hit⟩ | ⟨a, ha⟩ | hnd
  · rcases abCandidateRow_cases hit with h1 | h2 | h3 | h4
    · exact Or.inl (row_shape_flags E _ r (Or.inl h1)).1
    · exact Or.inl (row_shape_flags E _ r (Or.inr (Or.inl h2))).1
    · exact Or.inl (row_shape_flags E _ r (Or.inr (Or.inr (Or.inl h3)))).1
    · exact Or.inl (row_shape_flags E _ r (Or.inr (Or.inr (Or.inr (Or.inl h4))))).1
  · rcases ha ▸ cAssetRow_cases E (mkLangCtx E lang) a with h1 | h2
    · subst ha
      rcases cAssetRow_cases E (mkLangCtx E lang) a with hc1 | hc2
      · exact Or.inl (row_shape_flags E _ _
          (Or.inr (Or.inr (Or.inr (Or.inr (Or.inl hc1)))))).1
      · exact Or.inl (row_shape_flags E _ _
          (Or.inr (Or.inr (Or.inr (Or.inr (Or.inr hc2)))))).1
    · subst ha
      rcases cAssetRow_cases E (mkLangCtx E lang) a with hc1 | hc2
      · exact Or.inl (row_shape_flags E _ _
          (Or.inr (Or.inr (Or.inr (Or.inr (Or.inl hc1)))))).1
      · exact Or.inl (row_shape_flags E _ _
          (Or.inr (Or.inr (Or.inr (Or.inr (Or.inr hc2)))))).1
  · exact Or.inr hnd

/-- C1: the status of every episode-backed record is the pure function of the
    assessment flags: OK exactly when audio-ok and transcript-ok both hold,
    ISSUE otherwise, at each of the three emission sites; and globally, every
    record of a run whose status is OK or ISSUE satisfies the biconditional
    with the flags stored in the record. -/
theorem claim_C1 :
    (∀ (E : Env) (ctx : LangCtx) (t u : String) (res : CheckResult),
      (rowDirect E ctx t u res).status = "OK"
        ↔ (res.audio_ok = true ∧ res.bulletin_ok = true))
    ∧ (∀ (E : Env) (ctx : LangCtx) (t pu et eu : String) (res : CheckResult),
      (rowResolved E ctx t pu et eu res).status = "OK"
        ↔ (res.audio_ok = true ∧ res.bulletin_ok = true))
    ∧ (∀ (E : Env) (ctx : LangCtx) (t pu et eu : String) (res : CheckResult),
      (rowCEpisode E ctx t pu et eu res).status = "OK"
        ↔ (res.audio_ok = true ∧ res.bulletin_ok = true))
    ∧ (∀ (E : Env) (lang : Language) (r : Row), r ∈ processLang E lang →
      (r.status = "OK" ∨ r.status = "ISSUE") →
      (r.status = "OK" ↔ r.audio_ok = Cell.bool true ∧ r.bulletin_ok = Cell.bool true)) := by
  refine ⟨?_, ?_, ?_, ?_⟩
  · intro E ctx t u res
    exact statusOf_eq_ok_iff res
  · intro E ctx t pu et eu res
    exact statusOf_eq_ok_iff res
  · intro E ctx t pu et eu res
    exact statusOf_eq_ok_iff res
  · intro E lang r hmem hst
    rcases processLang_row_facts hmem with hiff | hnd
    · exact hiff
    · subst hnd
      rw [show (rowNoData E (mkLangCtx E lang)).status = "NO-DATA" from rfl] at hst
      rcases hst with hst | hst <;> exact absurd hst (by decide)

/-- The status literal of every A/B record differs from NO-DATA. -/
theorem abCandidateRow_ne_nodata {E : Env} {ctx : LangCtx} {it : LinkItem} {r : Row}
    (h : abCandidateRow E ctx it = some r) : r.status ≠ "NO-DATA" := by
  rcases abCandidateRow_cases h with h1 | h2 | h3 | h4
  · exact (row_shape_flags E ctx r (Or.inl h1)).2.1
  · exact (row_shape_flags E ctx r (Or.inr (Or.inl h2))).2.1
  · exact (row_shape_flags E ctx r (Or.inr (Or.inr (Or.inl h3)))).2.1
  · exact (row_shape_flags E ctx r (Or.inr (Or.inr (Or.inr (Or.inl h4))))).2.1

/-- The status literal of every strategy C record differs from NO-DATA. -/
theorem cAssetRow_ne_nodata (E : Env) (ctx : LangCtx) (a : AudioItem) :
    (cAssetRow E ctx a).status ≠ "NO-DATA" := by
  rcases cAssetRow_cases E ctx a with ⟨t, pu, et, eu, res, h⟩ | ⟨t, au, sz, h⟩
  · rw [h]
    exact (row_shape_flags E ctx _ (Or.inr (Or.inr (Or.inr (Or.inr (Or.inl
      ⟨t, pu, et, eu, res, rfl⟩)))))).2.1
  · rw [h]
    exact (row_shape_flags E ctx _ (Or.inr (Or.inr (Or.inr (Or.inr (Or.inr
      ⟨t, au, sz, rfl⟩)))))).2.1

theorem langAB_ne_nodata {E : Env} {lang : Language} {r : Row}
    (h : r ∈ langAB E lang) : r.status ≠ "NO-DATA" := by
  rw [langAB, abRows] at h
  obtain ⟨it, -, hit⟩ := List.mem_filterMap.mp h
  exact abCandidateRow_ne_nodata hit

theorem langC_ne_nodata {E : Env} {lang : Language} {r : Row}
    (h : r ∈ langC E lang) : r.status ≠ "NO-DATA" := by
  rw [langC, cRowsOf] at h
  split at h
  · obtain ⟨a, -, ha⟩ := List.mem_map.mp h
    exact ha ▸ cAssetRow_ne_nodata E (mkLangCtx E lang) a
  · simp at h

/-- Every non-fallback record carries boolean assessment cells and an integer
    transcript length. -/
theorem processLang_cells {E : Env} {lang : Language} {r : Row}
    (h : r ∈ processLang E lang) (hne : r ≠ rowNoData E (mkLangCtx E lang)) :
    (∃ b, r.audio_ok = Cell.bool b) ∧ (∃ b, r.bulletin_ok = Cell.bool b)
    ∧ (∃ n, r.bulletin_len = Cell.nat n) := by
  rcases processLang_mem_cases h with ⟨it, hit⟩ | ⟨a, ha⟩ | hnd
  · rcases abCandidateRow_cases hit with h1 | h2 | h3 | h4
    · exact (row_shape_flags E _ r (Or.inl h1)).2.2
    · exact (row_shape_flags E _ r (Or.inr (Or.inl h2))).2.2
    · exact (row_shape_flags E _ r (Or.inr (Or.inr (Or.inl h3)))).2.2
    · exact (row_shape_flags E _ r (Or.inr (Or.inr (Or.inr (Or.inl h4))))).2.2
  · rcases cAssetRow_cases E (mkLangCtx E lang) a with ⟨t, pu, et, eu, res, hc⟩ | ⟨t, au, sz, hc⟩
    · exact (row_shape_flags E _ r (Or.inr (Or.inr (Or.inr (Or.inr (Or.inl
        ⟨t, pu, et, eu, res, ha.trans hc⟩)))))).2.2
    · exact (row_shape_flags E _ r (Or.inr (Or.inr (Or.inr (Or.inr (Or.inr
        ⟨t, au, sz, ha.trans hc⟩)))))).2.2
  · exact absurd hnd hne

/-- C10: the terminal-fallback record stores empty strings in the audio-ok,
    transcript-ok and transcript-length fields (every other record stores two
    booleans and an integer there), empty program/episode titles and episode
    address, and the schedule address as program address. -/
theorem claim_C10 :
    (∀ (E : Env) (ctx : LangCtx),
      (rowNoData E ctx).audio_ok = Cell.str "" ∧ (rowNoData E ctx).bulletin_ok = Cell.str ""
      ∧ (rowNoData E ctx).bulletin_len = Cell.str ""
      ∧ (rowNoData E ctx).program_title = "" ∧ (rowNoData E ctx).episode_title = ""
      ∧ (rowNoData E ctx).episode_url = ""
      ∧ (rowNoData E ctx).program_url = ctx.scheduleUrl)
    ∧ (∀ (E : Env) (lang : Language) (r : Row), r ∈ processLang E lang →
      r ≠ rowNoData E (mkLangCtx E lang) →
      (∃ b, r.audio_ok = Cell.bool b) ∧ (∃ b, r.bulletin_ok = Cell.bool b)
      ∧ (∃ n, r.bulletin_len = Cell.nat n)) := by
  refine ⟨fun E ctx => ⟨rfl, rfl, rfl, rfl, rfl, rfl, rfl⟩, ?_⟩
  intro E lang r hmem hne
  exact processLang_cells hmem hne

/-- C10 at a concrete run: the non-fallback record of envA has boolean and
    integer cells. -/
theorem claim_C10_witness :
    (∃ b, rowA0.audio_ok = Cell.bool b) ∧ (∃ b, rowA0.bulletin_ok = Cell.bool b)
    ∧ (∃ n, rowA0.bulletin_len = Cell.nat n) :=
  claim_C10.2 envA langEn rowA0 (by decide) (by decide)

/-- C1 at a concrete run: the envA record has status ISSUE, and the
    biconditional with its stored flags holds. -/
theorem claim_C1_witness :
    rowA0.status = "OK" ↔ rowA0.audio_ok = Cell.bool true ∧ rowA0.bulletin_ok = Cell.bool true :=
  claim_C1.2.2.2 envA langEn rowA0 (by decide) (Or.inr (by decide))

/-- C3: strategy C emits nothing when A/B emitted a record, and emits records
    only when A/B emitted nothing and the schedule markup is non-empty. -/
theorem claim_C3 (E : Env) (lang : Language) :
    (langAB E lang ≠ [] → langC E lang = [])
    ∧ (langC E lang ≠ [] →
        langAB E lang = [] ∧ (scheduleState E (mkLangCtx E lang)).2.1 ≠ "") := by
  constructor
  · intro hA
    cases hE : (langAB E lang).isEmpty
    · rw [langC, cRowsOf, hE]
      rfl
    · exact absurd (List.isEmpty_iff.mp hE) hA
  · intro hC
    rw [langC, cRowsOf] at hC
    split at hC
    case isTrue hcond =>
      rw [Bool.and_eq_true] at hcond
      refine ⟨List.isEmpty_iff.mp hcond.1, ?_⟩
      have h2 := hcond.2
      simpa using h2
    case isFalse hcond =>
      exact absurd rfl hC

/-- C3 at concrete runs: envA has an A/B record and no strategy C records;
    envC has strategy C records, no A/B record, and non-empty markup. -/
theorem claim_C3_witness :
    langC envA langEn = []
    ∧ (langAB envC langEn = [] ∧ (scheduleState envC (mkLangCtx envC langEn)).2.1 ≠ "") :=
  ⟨(claim_C3 envA langEn).1 (by decide), (claim_C3 envC langEn).2 (by decide)⟩

/-- C2: every processed language appends at least one record to the run
    output, and the number of NO-DATA records for a language is one when no
    strategy produced a record and zero otherwise. -/
theorem claim_C2 (E : Env) (batch : Option String) (lang : Language)
    (h : lang ∈ activeLangs E.cfg batch) :
    (∃ r, r ∈ processLang E lang ∧ r ∈ runRows E batch)
    ∧ processLang E lang ≠ []
    ∧ (processLang E lang).countP (fun r => r.status == "NO-DATA")
        = if (langAB E lang).isEmpty && (langC E lang).isEmpty then 1 else 0 := by
  have hne : processLang E lang ≠ [] := by
    rw [processLang]
    intro hnil
    rcases List.append_eq_nil.mp hnil with ⟨h12, h3⟩
    rcases List.append_eq_nil.mp h12 with ⟨hA, hCC⟩
    rw [hA, hCC] at h3
    simp at h3
  refine ⟨?_, hne, ?_⟩
  · obtain ⟨r, hr⟩ := List.exists_mem_of_ne_nil _ hne
    refine ⟨r, hr, ?_⟩
    rw [runRows]
    exact List.mem_flatMap.mpr ⟨lang, h, hr⟩
  · have hAB : ∀ r ∈ langAB E lang, ¬((r.status == "NO-DATA") = true) := by
      intro r hr
      simp only [beq_iff_eq]
      exact langAB_ne_nodata hr
    have hCz : ∀ r ∈ langC E lang, ¬((r.status == "NO-DATA") = true) := by
      intro r hr
      simp only [beq_iff_eq]
      exact langC_ne_nodata hr
    rw [processLang, List.countP_append, List.countP_append,
      List.countP_eq_zero.mpr hAB, List.countP_eq_zero.mpr hCz]
    cases hcond : (langAB E lang).isEmpty && (langC E lang).isEmpty
    · rfl
    · rfl

/-- C2 at a concrete run: with every fetch failing, langEn appends exactly one
    NO-DATA record. -/
theorem claim_C2_witness :
    (∃ r, r ∈ processLang envND langEn ∧ r ∈ runRows envND none)
    ∧ processLang envND langEn ≠ []
    ∧ (processLang envND langEn).countP (fun r => r.status == "NO-DATA")
        = if (langAB envND langEn).isEmpty && (langC envND langEn).isEmpty then 1 else 0 :=
  claim_C2 envND none langEn (by decide)

/-! ## The episode choice (claim C4) -/

/-- With a fallback already in hand, the lookup loop returns the first
    matching anchor, else that fallback. -/
theorem epLoop_some (html : Chars) (vs : List String) (base : Chars) :
    ∀ (rest : List Anchor) (f : String × String),
      epLoop html vs base rest (some f)
        = match rest.find? (dayMatch html vs) with
          | some a => some (epPair base a)
          | none => some f := by
  intro rest
  induction rest with
  | nil => intro f; rfl
  | cons a rest ih =>
    intro f
    by_cases h1 : vs.any (fun v => hasCS v.data (strip_tags a.ainner)) = true
    · have hd : dayMatch html vs a = true := by rw [dayMatch, h1]; rfl
      rw [epLoop]
      simp only [List.find?_cons_of_pos _ hd, h1, if_true]
      rfl
    · by_cases h2 : vs.any (fun v => hasCS v.data (strip_tags (ctxSlice html a))) = true
      · have hd : dayMatch html vs a = true := by rw [dayMatch, h2]; simp
        rw [epLoop]
        simp only [Bool.not_eq_true] at h1
        simp only [List.find?_cons_of_pos _ hd, h1, h2, if_true, Bool.false_eq_true, if_false]
        rfl
      · have hd : ¬(dayMatch html vs a = true) := by
          simp only [Bool.not_eq_true] at h1 h2
          rw [dayMatch, h1, h2]
          decide
        rw [epLoop]
        simp only [Bool.not_eq_true] at h1 h2
        simp only [List.find?_cons_of_neg _ hd, h1, h2, Bool.false_eq_true, if_false]
        exact ih f

/-- Starting empty, the lookup loop returns the first matching anchor, else
    the first anchor encountered, else nothing. -/
theorem epLoop_none_char (html : Chars) (vs : List String) (base : Chars) :
    ∀ (anchors : List Anchor),
      epLoop html vs base anchors none
        = match anchors.find? (dayMatch html vs) with
          | some a => some (epPair base a)
          | none => anchors.head?.map (epPair base) := by
  intro anchors
  cases anchors with
  | nil => rfl
  | cons a rest =>
    by_cases h1 : vs.any (fun v => hasCS v.data (strip_tags a.ainner)) = true
    · have hd : dayMatch html vs a = true := by rw [dayMatch, h1]; rfl
      rw [epLoop]
      simp only [List.find?_cons_of_pos _ hd, h1, if_true]
      rfl
    · by_cases h2 : vs.any (fun v => hasCS v.data (strip_tags (ctxSlice html a))) = true
      · have hd : dayMatch html vs a = true := by rw [dayMatch, h2]; simp
        rw [epLoop]
        simp only [Bool.not_eq_true] at h1
        simp only [List.find?_cons_of_pos _ hd, h1, h2, if_true, Bool.false_eq_true, if_false]
        rfl
      · have hd : ¬(dayMatch html vs a = true) := by
          simp only [Bool.not_eq_true] at h1 h2
          rw [dayMatch, h1, h2]
          decide
        rw [epLoop]
        simp only [Bool.not_eq_true] at h1 h2
        simp only [List.find?_cons_of_neg _ hd, h1, h2, Bool.false_eq_true, if_false]
        refine (epLoop_some html vs base rest (epPair base a)).trans ?_
        cases hf : rest.find? (dayMatch html vs) with
        | some a2 => rfl
        | none => rfl

/-- The raised-exception reading of a failed program page fetch. -/
theorem find_episode_none (net : Net) (purl : String) (d : PyDate)
    (h : net.fetchText purl = none) : find_episode_for_date net purl d = none := by
  simp only [find_episode_for_date, h]

/-- On a successful fetch the episode lookup returns exactly the declarative
    choice. -/
theorem find_episode_some (net : Net) (purl : String) (d : PyDate) (html : String)
    (h : net.fetchText purl = some html) :
    find_episode_for_date net purl d
      = some (chosenEpisode html.data (date_variants d) (base_of purl.data)) := by
  simp only [find_episode_for_date, h]
  rw [epLoop_none_char]
  rfl

/-- The A/B loop body on a program candidate. -/
theorem abCandidateRow_program (E : Env) (ctx : LangCtx) (it : LinkItem)
    (hke : (it.kind == "episode" && hasCS litEpisode it.url.data) = false)
    (hkp : (it.kind == "program" && hasCS litProgram it.url.data) = true) :
    abCandidateRow E ctx it =
      match find_episode_for_date E.net it.url E.tgt with
      | none => some (rowSNEerr E ctx (String.mk (pyStrip it.title.data)) it.url)
      | some none => some (rowSNEnoEp E ctx (String.mk (pyStrip it.title.data)) it.url "")
      | some (some (t, u)) =>
        if u == "" then some (rowSNEnoEp E ctx (String.mk (pyStrip it.title.data)) it.url t)
        else some (rowResolved E ctx (String.mk (pyStrip it.title.data)) it.url t u
          (check_episode E.net u ctx.audioMin ctx.bulletinMin)) := by
  rw [abCandidateRow, hke, hkp, if_neg (show ¬(false = true) by decide), if_pos rfl]

/-- Every episode anchor of a page carries the episode literal in its address,
    so its absolutized address is never empty. -/
theorem anchorUrl_ne_empty {html : Chars} {a : Anchor} (base : Chars)
    (h : a ∈ findAnchors html litEpisode) :
    String.mk (absolutizeC base a.aurl) ≠ "" := by
  have h1 : hasCI litEpisode a.aurl = true := litPlus_hasCI (findAnchors_url h)
  have h2 : hasCI litEpisode (absolutizeC base a.aurl) = true :=
    absolutize_hasCI base a.aurl ("rogramnews?pid=".data) h1
  intro hmk
  have hd : absolutizeC base a.aurl = [] := by
    have h3 := congrArg String.data hmk
    simpa using h3
  rw [hd] at h2
  exact absurd h2 (by decide)

/-- The declarative choice is empty exactly when the page has no episode
    anchors. -/
theorem chosenEpisode_none_iff (html : Chars) (vs : List String) (base : Chars) :
    chosenEpisode html vs base = none ↔ findAnchors html litEpisode = [] := by
  rw [chosenEpisode]
  cases hA : findAnchors html litEpisode with
  | nil => simp
  | cons a rest =>
    cases hf : (a :: rest).find? (dayMatch html vs) with
    | some a2 => simp
    | none => simp

/-- The chosen episode address is never the empty string. -/
theorem chosenEpisode_url_ne {html : Chars} {vs : List String} {base : Chars} {t u : String}
    (h : chosenEpisode html vs base = some (t, u)) : u ≠ "" := by
  rw [chosenEpisode] at h
  cases hf : (findAnchors html litEpisode).find? (dayMatch html vs) with
  | some a =>
    rw [hf] at h
    have h2 : some (epPair base a) = some (t, u) := h
    have h3 := Option.some.inj h2
    have hu := congrArg Prod.snd h3
    simp only [epPair] at hu
    rw [← hu]
    exact anchorUrl_ne_empty base (List.mem_of_find?_eq_some hf)
  | none =>
    rw [hf] at h
    cases hA : findAnchors html litEpisode with
    | nil =>
      rw [hA] at h
      simp at h
    | cons a rest =>
      rw [hA] at h
      have h2 : some (epPair base a) = some (t, u) := h
      have h3 := Option.some.inj h2
      have hu := congrArg Prod.snd h3
      simp only [epPair] at hu
      rw [← hu]
      exact anchorUrl_ne_empty base (hA ▸ List.mem_cons_self a rest)

/-- C4: on a fetched program page the chosen episode is the first anchor in
    document order whose label or ±200-character context holds a date variant,
    else the first anchor encountered; a fetch failure raises; at the record
    level a SCHEDULED-NO-EPISODE record with empty episode address is emitted
    exactly when the fetch fails or the page has no episode anchors; and when
    anchors exist but none matches, the first anchor is assessed and emits an
    OK or ISSUE record. -/
theorem claim_C4 :
    (∀ (net : Net) (purl : String) (d : PyDate) (html : String),
        net.fetchText purl = some html →
        find_episode_for_date net purl d
          = some (chosenEpisode html.data (date_variants d) (base_of purl.data)))
    ∧ (∀ (net : Net) (purl : String) (d : PyDate),
        net.fetchText purl = none → find_episode_for_date net purl d = none)
    ∧ (∀ (E : Env) (ctx : LangCtx) (it : LinkItem),
        (it.kind == "episode" && hasCS litEpisode it.url.data) = false →
        (it.kind == "program" && hasCS litProgram it.url.data) = true →
        ((∃ r, abCandidateRow E ctx it = some r
            ∧ r.status = "SCHEDULED-NO-EPISODE" ∧ r.episode_url = "")
          ↔ (E.net.fetchText it.url = none
             ∨ ∃ html, E.net.fetchText it.url = some html
                 ∧ findAnchors html.data litEpisode = [])))
    ∧ (∀ (E : Env) (ctx : LangCtx) (it : LinkItem) (html : String) (a : Anchor)
          (rest : List Anchor),
        (it.kind == "episode" && hasCS litEpisode it.url.data) = false →
        (it.kind == "program" && hasCS litProgram it.url.data) = true →
        E.net.fetchText it.url = some html →
        findAnchors html.data litEpisode = a :: rest →
        (a :: rest).find? (dayMatch html.data (date_variants E.tgt)) = none →
        ∃ res, res = check_episode E.net (String.mk (absolutizeC (base_of it.url.data) a.aurl))
            ctx.audioMin ctx.bulletinMin
          ∧ abCandidateRow E ctx it
              = some (rowResolved E ctx (String.mk (pyStrip it.title.data)) it.url
                  (String.mk (strip_tags a.ainner))
                  (String.mk (absolutizeC (base_of it.url.data) a.aurl)) res)
          ∧ (statusOf res = "OK" ∨ statusOf res = "ISSUE")) := by
  refine ⟨find_episode_some, find_episode_none, ?_, ?_⟩
  · intro E ctx it hke hkp
    rw [abCandidateRow_program E ctx it hke hkp]
    constructor
    · rintro ⟨r, hr, hst, heu⟩
      cases hf : E.net.fetchText it.url with
      | none => exact Or.inl rfl
      | some html =>
        rw [find_episode_some E.net it.url E.tgt html hf] at hr
        cases hc : chosenEpisode html.data (date_variants E.tgt) (base_of it.url.data) with
        | none =>
          exact Or.inr ⟨html, rfl, (chosenEpisode_none_iff _ _ _).mp hc⟩
        | some p =>
          rw [hc] at hr
          obtain ⟨t, u⟩ := p
          have hune : u ≠ "" := chosenEpisode_url_ne hc
          have hr2 : (if (u == "") = true
              then some (rowSNEnoEp E ctx (String.mk (pyStrip it.title.data)) it.url t)
              else some (rowResolved E ctx (String.mk (pyStrip it.title.data)) it.url t u
                (check_episode E.net u ctx.audioMin ctx.bulletinMin))) = some r := hr
          rw [if_neg (by simp [hune])] at hr2
          have h3 := Option.some.inj hr2
          rw [← h3] at heu
          exact absurd heu hune
    · rintro (hf | ⟨html, hf, hA⟩)
      · refine ⟨rowSNEerr E ctx (String.mk (pyStrip it.title.data)) it.url, ?_, rfl, rfl⟩
        rw [find_episode_none E.net it.url E.tgt hf]
      · refine ⟨rowSNEnoEp E ctx (String.mk (pyStrip it.title.data)) it.url "", ?_, rfl, rfl⟩
        rw [find_episode_some E.net it.url E.tgt html hf,
          (chosenEpisode_none_iff html.data (date_variants E.tgt) (base_of it.url.data)).mpr hA]
  · intro E ctx it html a rest hke hkp hf hA hfind
    refine ⟨_, rfl, ?_, statusOf_ok_or_issue _⟩
    rw [abCandidateRow_program E ctx it hke hkp, find_episode_some E.net it.url E.tgt html hf]
    have hc : chosenEpisode html.data (date_variants E.tgt) (base_of it.url.data)
        = some (epPair (base_of it.url.data) a) := by
      rw [chosenEpisode, hA, hfind]
      rfl
    rw [hc]
    have hune : String.mk (absolutizeC (base_of it.url.data) a.aurl) ≠ "" :=
      anchorUrl_ne_empty _ (hA ▸ List.mem_cons_self a rest)
    have hbeq : (String.mk (absolutizeC (base_of it.url.data) a.aurl) == "") = false :=
      beq_eq_false_iff_ne.mpr hune
    show (if (String.mk (absolutizeC (base_of it.url.data) a.aurl) == "") = true
        then some (rowSNEnoEp E ctx (String.mk (pyStrip it.title.data)) it.url
          (String.mk (strip_tags a.ainner)))
        else some (rowResolved E ctx (String.mk (pyStrip it.title.data)) it.url
          (String.mk (strip_tags a.ainner))
          (String.mk (absolutizeC (base_of it.url.data) a.aurl))
          (check_episode E.net (String.mk (absolutizeC (base_of it.url.data) a.aurl))
            ctx.audioMin ctx.bulletinMin))) = _
    rw [if_neg (by rw [hbeq]; decide)]

/-- C4 at a concrete run: the program page with an undated and a dated anchor
    resolves to the declarative choice, and a failed fetch raises. -/
theorem claim_C4_witness :
    find_episode_for_date netP progUrl7 ⟨2025, 9, 1⟩
      = some (chosenEpisode progHtml.data (date_variants ⟨2025, 9, 1⟩) (base_of progUrl7.data))
    ∧ find_episode_for_date envND.net progUrl7 ⟨2025, 9, 1⟩ = none :=
  ⟨claim_C4.1 netP progUrl7 ⟨2025, 9, 1⟩ progHtml (by decide),
   claim_C4.2.1 envND.net progUrl7 ⟨2025, 9, 1⟩ rfl⟩

/-! ## The raw-asset record (claim C8) -/

/-- C8 (as the code behaves): a strategy C asset with no recoverable pid, a
    failing program-page lookup, or a lookup with no episode anchors, emits
    the raw-asset record; that record keeps the schedule page as program
    address, the raw asset as episode address, length 0 for the transcript,
    sets transcript-ok from membership of the whitespace-normalized lowered
    title in the merely-lowercased allow-list, and has status OK exactly when
    the byte-size check and that membership both hold. -/
theorem claim_C8 (E : Env) (ctx : LangCtx) (t au : String) (sz : Nat) :
    (rowCRaw E ctx t au sz).episode_url = au
    ∧ (rowCRaw E ctx t au sz).program_url = ctx.scheduleUrl
    ∧ (rowCRaw E ctx t au sz).bulletin_len = Cell.nat 0
    ∧ ((rowCRaw E ctx t au sz).bulletin_ok = Cell.bool true
        ↔ (bulletinOptionalSet E.cfg).contains (String.mk (norm_title t.data)) = true)
    ∧ ((rowCRaw E ctx t au sz).status = "OK"
        ↔ (ctx.audioMin * 1024 ≤ sz
           ∧ (bulletinOptionalSet E.cfg).contains (String.mk (norm_title t.data)) = true))
    ∧ (rowCRaw E ctx t au sz).issues
        = (if (bulletinOptionalSet E.cfg).contains (String.mk (norm_title t.data))
           then "bulletin optional for this program"
           else "No programnews found for this program on schedule")
    ∧ (∀ a : AudioItem, pid_from_audio_url a.audio_url = none →
        cAssetRow E ctx a = rowCRaw E ctx (String.mk (pyStrip a.title.data)) a.audio_url
          (E.net.fetchSize a.audio_url))
    ∧ (∀ (a : AudioItem) (pid : String), pid_from_audio_url a.audio_url = some pid →
        find_episode_for_date E.net (progUrlOf E ctx pid) E.tgt = none →
        cAssetRow E ctx a = rowCRaw E ctx (String.mk (pyStrip a.title.data)) a.audio_url
          (E.net.fetchSize a.audio_url))
    ∧ (∀ (a : AudioItem) (pid : String), pid_from_audio_url a.audio_url = some pid →
        find_episode_for_date E.net (progUrlOf E ctx pid) E.tgt = some none →
        cAssetRow E ctx a = rowCRaw E ctx (String.mk (pyStrip a.title.data)) a.audio_url
          (E.net.fetchSize a.audio_url)) := by
  have hcell : ∀ a : Bool, (Cell.bool a = Cell.bool true ↔ a = true) := by
    intro a
    simp
  refine ⟨rfl, rfl, rfl, hcell _, ?_, rfl, ?_, ?_, ?_⟩
  · have hok := ok_iff_aux (decide (ctx.audioMin * 1024 ≤ sz))
      ((bulletinOptionalSet E.cfg).contains (String.mk (norm_title t.data)))
    constructor
    · intro h
      obtain ⟨h1, h2⟩ := hok.mp h
      exact ⟨of_decide_eq_true h1, h2⟩
    · rintro ⟨h1, h2⟩
      exact hok.mpr ⟨decide_eq_true h1, h2⟩
  · intro a h
    simp only [cAssetRow, h]
  · intro a pid h1 h2
    simp only [cAssetRow, h1, h2]
  · intro a pid h1 h2
    simp only [cAssetRow, h1, h2]

/-- C8 counterexample: envC8's asset is titled by the key "ON AIR", its raw
    record is in the run output, the whitespace-normalized case-insensitive
    comparison puts the title in the allow-list, yet transcript-ok is false
    and the record's program address is the schedule page, not the asset. -/
theorem claim_C8_cex :
    rowC8 ∈ processLang envC8 langEn
    ∧ rowC8.episode_url = "https://x.test/a.mp3"
    ∧ pid_from_audio_url "https://x.test/a.mp3" = none
    ∧ (envC8.cfg.bulletin_optional_programs.map
        (fun s => String.mk (norm_title s.data))).contains
          (String.mk (norm_title "ON AIR".data)) = true
    ∧ rowC8.audio_ok = Cell.bool true
    ∧ rowC8.bulletin_ok = Cell.bool false
    ∧ rowC8.status = "ISSUE"
    ∧ rowC8.program_url = schedUrlEn
    ∧ rowC8.program_url ≠ rowC8.episode_url := by
  decide

/-- C8 at the concrete run: the pid-free asset takes the raw-record branch. -/
theorem claim_C8_witness :
    cAssetRow envC8 (mkLangCtx envC8 langEn) aC8
      = rowCRaw envC8 (mkLangCtx envC8 langEn) (String.mk (pyStrip aC8.title.data)) aC8.audio_url
          (envC8.net.fetchSize aC8.audio_url) :=
  (claim_C8 envC8 (mkLangCtx envC8 langEn) "ON AIR" "https://x.test/a.mp3"
    3000000).2.2.2.2.2.2.1 aC8 (by decide)

end RtiMonitor